import Mathlib

/-!
# Verification of the OpenClaw vault subsystem

Shallow embedding of `src/vault/operations.ts` (secret parsing and
serialization, decrypt error handling, provider registry, hostname and
provider-name guards) and of the `openclaw vault` CLI commands
(`add`, `remove`, `migrate`) from `src/cli/vault-cli.ts`.

Strings are modelled as their character sequences; JS `String.prototype.trim`
is modelled by the exact set of code points it removes.  JS `Map` and plain
object maps are modelled as insertion-ordered association lists: `Map.set`
and computed-key object spread update an existing key in place and append a
new key at the end.  Filesystem and age-encryption effects of the CLI are
modelled by an explicit `World` state plus a list of write `Effect`s; the
age keypair drawn by `generateKeypair` is passed in as a parameter, and
key resolution / decryption are assumed to succeed (the claims under study
do not exercise their failure paths, except C2 which models `decryptVault`
separately with explicit filesystem and decryption oracles).
-/

namespace OpenClawVault

/-! ## Character classes (from the JS regexes and `String.prototype.trim`) -/

/-- The code points removed by JS `String.prototype.trim`:
ASCII whitespace, NBSP, BOM, and the Unicode space/line separators. -/
def isJsWhitespace (c : Char) : Bool :=
  let n := c.toNat
  n = 9 || n = 10 || n = 11 || n = 12 || n = 13 || n = 32 ||
  n = 160 || n = 0x1680 || (0x2000 ≤ n && n ≤ 0x200A) ||
  n = 0x2028 || n = 0x2029 || n = 0x202F || n = 0x205F || n = 0x3000 ||
  n = 0xFEFF

/-- `[A-Z]` -/
def isAsciiUpper (c : Char) : Bool := 65 ≤ c.toNat && c.toNat ≤ 90

/-- `[a-z]` -/
def isAsciiLower (c : Char) : Bool := 97 ≤ c.toNat && c.toNat ≤ 122

/-- `[0-9]` -/
def isAsciiDigit (c : Char) : Bool := 48 ≤ c.toNat && c.toNat ≤ 57

/-- A character allowed after the first one by `VALID_SECRET_NAME`,
`/^[A-Z][A-Z0-9_]*$/` (95 is `_`). -/
def isNameChar (c : Char) : Bool :=
  isAsciiUpper c || isAsciiDigit c || c.toNat = 95

/-- `validateSecretName`: the name matches `/^[A-Z][A-Z0-9_]*$/`. -/
def validSecretName (s : String) : Bool :=
  match s.toList with
  | [] => false
  | c :: rest => isAsciiUpper c && rest.all isNameChar

/-- First character of `VALID_HOSTNAME`, `/^[a-zA-Z0-9][a-zA-Z0-9._-]*$/`. -/
def isHostFirstChar (c : Char) : Bool :=
  isAsciiLower c || isAsciiUpper c || isAsciiDigit c

/-- A character allowed after the first one by `VALID_HOSTNAME`
(46 is `.`, 95 is `_`, 45 is `-`). -/
def isHostChar (c : Char) : Bool :=
  isHostFirstChar c || c.toNat = 46 || c.toNat = 95 || c.toNat = 45

/-- `VALID_HOSTNAME.test`: the host matches `/^[a-zA-Z0-9][a-zA-Z0-9._-]*$/`. -/
def validHostname (s : String) : Bool :=
  match s.toList with
  | [] => false
  | c :: rest => isHostFirstChar c && rest.all isHostChar

/-- A character allowed after the first one by `VALID_PROVIDER_NAME`,
`/^[a-z][a-z0-9_-]*$/`. -/
def isProviderChar (c : Char) : Bool :=
  isAsciiLower c || isAsciiDigit c || c.toNat = 95 || c.toNat = 45

/-- `validateProviderName`: the name matches `/^[a-z][a-z0-9_-]*$/`. -/
def validProviderName (s : String) : Bool :=
  match s.toList with
  | [] => false
  | c :: rest => isAsciiLower c && rest.all isProviderChar

/-! ## JS string helpers on character lists -/

/-- JS `toLowerCase` (character-wise; the registry keys are ASCII). -/
def jsToLower (s : String) : String :=
  String.mk (s.toList.map Char.toLower)

/-- JS `toUpperCase` (character-wise). -/
def jsToUpper (s : String) : String :=
  String.mk (s.toList.map Char.toUpper)

/-- Remove trailing JS whitespace. -/
def trimEnd (l : List Char) : List Char :=
  (l.reverse.dropWhile isJsWhitespace).reverse

/-- JS `String.prototype.trim`: remove leading and trailing whitespace. -/
def trimChars (l : List Char) : List Char :=
  (trimEnd l).dropWhile isJsWhitespace

/-- JS `string.split("\n")` on the character sequence. -/
def splitNl : List Char → List (List Char)
  | [] => [[]]
  | c :: rest =>
    if c = '\n' then [] :: splitNl rest
    else
      match splitNl rest with
      | [] => [[c]]
      | l :: ls => (c :: l) :: ls

/-- JS `lines.join("\n")`. -/
def joinNl : List (List Char) → List Char
  | [] => []
  | [l] => l
  | l :: ls => l ++ '\n' :: joinNl ls

/-- JS `line.indexOf("=")`, with `none` for `-1`. -/
def firstEq : List Char → Option Nat
  | [] => none
  | c :: rest =>
    if c = '=' then some 0 else (firstEq rest).map (· + 1)

/-! ## Association-list model of JS `Map` / plain objects -/

/-- `Map.get` / property lookup on an insertion-ordered association list. -/
def mapLookup {α : Type} : List (String × α) → String → Option α
  | [], _ => none
  | p :: r, k => if p.1 = k then some p.2 else mapLookup r k

/-- `Map.set` / computed-key object spread: update an existing key in
place, append a new key at the end. -/
def mapSet {α : Type} : List (String × α) → String → α → List (String × α)
  | [], k, v => [(k, v)]
  | p :: r, k, v => if p.1 = k then (k, v) :: r else p :: mapSet r k v

/-- `Map.delete` / rest-destructuring a key away. -/
def mapDelete {α : Type} : List (String × α) → String → List (String × α)
  | [], _ => []
  | p :: r, k => if p.1 = k then r else p :: mapDelete r k

/-- JS object spread `{...base, ...overlay}`: every entry of `overlay`
is inserted into `base` with `Map.set` semantics (overlay wins). -/
def spreadMerge {α : Type} (base overlay : List (String × α)) : List (String × α) :=
  overlay.foldl (fun acc p => mapSet acc p.1 p.2) base

/-! ## Secret parsing / serialization (`parseVaultSecrets` / `serializeVaultSecrets`) -/

/-- The quote-stripping test of `parseVaultSecrets`: length at least 2 and
matching surrounding double or single quotes. -/
def quoteWrapped (v : List Char) : Bool :=
  decide (2 ≤ v.length) &&
  ((v.head? == some '"' && v.getLast? == some '"') ||
   (v.head? == some '\'' && v.getLast? == some '\''))

/-- `value.slice(1, -1)` applied when `quoteWrapped`. -/
def stripQuotesChars (v : List Char) : List Char :=
  if quoteWrapped v then (v.drop 1).dropLast else v

/-- One loop iteration of `parseVaultSecrets`: trim the raw line, skip
blank lines, `#` comments and lines whose first `=` is absent or at
index 0; otherwise split at the first `=`, trim both parts, and strip one
layer of matching quotes from the value. -/
def parseLine (rawLine : List Char) : Option (List Char × List Char) :=
  let line := trimChars rawLine
  if line.isEmpty then none
  else if line.head? = some '#' then none
  else
    match firstEq line with
    | none => none
    | some eqIdx =>
      if eqIdx < 1 then none
      else
        let key := trimChars (line.take eqIdx)
        let value := stripQuotesChars (trimChars (line.drop (eqIdx + 1)))
        some (key, value)

/-- The fold step of `parseVaultSecrets`: skip unparseable lines,
`secrets.set(key, value)` otherwise. -/
def parseStep (secrets : List (String × String)) (rawLine : List Char) :
    List (String × String) :=
  match parseLine rawLine with
  | none => secrets
  | some kv => mapSet secrets (String.mk kv.1) (String.mk kv.2)

/-- `parseVaultSecrets`: split on `"\n"` and fold the parsed lines into a
map with `Map.set` semantics. -/
def parseVaultSecrets (plaintext : String) : List (String × String) :=
  (splitNl plaintext.toList).foldl parseStep []

/-- One `KEY=value` line of `serializeVaultSecrets`. -/
def serializeLine (p : String × String) : List Char :=
  p.1.toList ++ '=' :: p.2.toList

/-- `serializeVaultSecrets`: one `KEY=value` per line joined with `"\n"`,
with a trailing newline; the empty set serializes to the empty string. -/
def serializeVaultSecrets (secrets : List (String × String)) : String :=
  if secrets.isEmpty then ""
  else String.mk (joinNl (secrets.map serializeLine) ++ ['\n'])

/-! ## `decryptVault` error handling (C2)

`decryptVault` is modelled over an explicit filesystem oracle
(`fsRead path = none` when `fs.promises.access` rejects) and an age
decryption oracle (`ageDecrypt key ciphertext`, returning the underlying
error message on failure as `age.Decrypter.decrypt` does by throwing). -/

/-- The two error shapes of `decryptVault`. -/
inductive VaultError where
  | notFound (msg : String)
  | decryptionFailed (msg : String) (cause : String)
deriving DecidableEq

/-- The exact failure message built by `decryptVault` around the
underlying cause. -/
def decryptFailureMessage (cause : String) : String :=
  "Failed to decrypt vault: " ++ cause ++
  "\nThe vault file may be corrupted, or the decryption key may be wrong."

/-- `decryptVault`: check existence, read, decrypt, parse. -/
def decryptVault (fsRead : String → Option String)
    (ageDecrypt : String → String → Except String String)
    (vaultPath secretKey : String) :
    Except VaultError (List (String × String)) :=
  match fsRead vaultPath with
  | none => .error (.notFound ("Vault file not found: " ++ vaultPath))
  | some ciphertext =>
    match ageDecrypt secretKey ciphertext with
    | .error cause =>
      .error (.decryptionFailed (decryptFailureMessage cause) cause)
    | .ok plaintext => .ok (parseVaultSecrets plaintext)

/-! ## Provider registry -/

/-- `VaultProviderEntry`: nginx listen port and expected secret name. -/
structure VaultProviderEntry where
  port : Nat
  secretName : String
deriving DecidableEq

/-- `VAULT_PROVIDER_DEFAULTS`, in source order. -/
def VAULT_PROVIDER_DEFAULTS : List (String × VaultProviderEntry) :=
  [("openai", ⟨8081, "OPENAI_API_KEY"⟩),
   ("anthropic", ⟨8082, "ANTHROPIC_API_KEY"⟩),
   ("deepgram", ⟨8083, "DEEPGRAM_API_KEY"⟩),
   ("openai-compat", ⟨8084, "OPENAI_COMPAT_API_KEY"⟩),
   ("google", ⟨8085, "GEMINI_API_KEY"⟩),
   ("groq", ⟨8086, "GROQ_API_KEY"⟩),
   ("xai", ⟨8087, "XAI_API_KEY"⟩),
   ("mistral", ⟨8088, "MISTRAL_API_KEY"⟩),
   ("brave", ⟨8089, "BRAVE_API_KEY"⟩),
   ("perplexity", ⟨8090, "PERPLEXITY_API_KEY"⟩)]

/-- `providerSecretName`: default secret name for a provider. -/
def providerSecretName (provider : String) : Option String :=
  (mapLookup VAULT_PROVIDER_DEFAULTS (jsToLower provider)).map (·.secretName)

/-- `findProviderBySecretName`: first registry entry with this secret name. -/
def findProviderBySecretName (secretName : String) :
    Option (String × VaultProviderEntry) :=
  VAULT_PROVIDER_DEFAULTS.find? (fun p => p.2.secretName = secretName)

/-- The URL string `http://<host>:<port>`. -/
def proxyUrlString (proxyHost : String) (port : Nat) : String :=
  "http://" ++ proxyHost ++ ":" ++ toString port

/-! ## CLI command errors and effects -/

/-- The CLI error taxonomy exercised by `add` / `remove` / `migrate`. -/
inductive CmdError where
  | invalidName
  | portProviderTogether
  | invalidPort
  | invalidProvider
  | invalidHostname
  | missingPublicKey
  | vaultFileNotFound
  | secretNotFound
deriving DecidableEq

/-- `providerProxyUrl`: `none` for unknown providers, otherwise validate
the host (throwing `InvalidHostname`) and build the default URL. -/
def providerProxyUrl (provider proxyHost : String) :
    Except CmdError (Option String) :=
  match mapLookup VAULT_PROVIDER_DEFAULTS (jsToLower provider) with
  | none => .ok none
  | some entry =>
    if validHostname proxyHost then
      .ok (some (proxyUrlString proxyHost entry.port))
    else .error .invalidHostname

/-- A provider's configuration entry: its `apiKey` field plus an opaque
residue standing for all its other fields. -/
structure ProviderCfg where
  apiKey : Option String
  rest : String
deriving DecidableEq

/-- The structured-configuration fields the vault CLI reads and writes. -/
structure OCConfig where
  vaultEnabled : Option Bool
  publicKey : Option String
  proxies : List (String × String)
  providers : List (String × ProviderCfg)
deriving DecidableEq

/-- Durable writes a CLI command performs, in program order. -/
inductive Effect where
  | writeVault (secrets : List (String × String))
  | writeConfig (cfg : OCConfig)
deriving DecidableEq

/-- Durable state: the structured configuration and the vault file
(`none` when absent, otherwise its decrypted secret set). -/
structure World where
  config : OCConfig
  vaultFile : Option (List (String × String))
deriving DecidableEq

/-- Apply one write. -/
def applyEffect (w : World) : Effect → World
  | .writeVault s => { w with vaultFile := some s }
  | .writeConfig c => { w with config := c }

/-- Apply a command's writes in order. -/
def applyEffects (w : World) (l : List Effect) : World :=
  l.foldl applyEffect w

/-! ## `vault add` -/

/-- The `add` flags that matter to the model: `--no-proxy` clears
`proxy`; `--proxy-host` defaults to `"vault"`; `--port` / `--provider`
are the custom-provider escape hatch (the numeric parsing of the port
flag string is elided: `port` is the parsed number). -/
structure AddOpts where
  proxy : Bool
  proxyHost : String
  port : Option Nat
  provider : Option String
deriving DecidableEq

/-- `maskValue` from `vault list`: values of length at most 8 are fully
masked; longer values keep the first and last 4 characters with `*`
filling the middle (`slice(0, 4) + "*".repeat(len - 8) + slice(-4)`). -/
def maskValue (value : String) : String :=
  if value.length ≤ 8 then String.mk (List.replicate value.length '*')
  else
    String.mk (value.toList.take 4 ++
      List.replicate (value.length - 4 * 2) '*' ++
      value.toList.drop (value.length - 4))

/-- A table row's value cell in `vault list`. -/
def tableCellValue (reveal : Bool) (value : String) : String :=
  if reveal then maskValue value else "(hidden)"

/-- A JSON map value in `vault list --json`. -/
def jsonCellValue (reveal : Bool) (value : String) : String :=
  if reveal then value else maskValue value

/-- The proxy-configuration tail of `vault add`, run after the vault
write when `--no-proxy` is absent.  With explicit `--port`/`--provider`
the mapping is written unconditionally after host validation; otherwise a
registry match auto-adds the default mapping only when the provider has
no (truthy) mapping yet. -/
def vaultAddProxyStep (name : String) (opts : AddOpts) (cfg : OCConfig)
    (vaultEff : Effect) : List Effect × Except CmdError Unit :=
  match opts.port, opts.provider with
  | some port, some providerName =>
    if validHostname opts.proxyHost then
      let proxyUrl := proxyUrlString opts.proxyHost port
      ([vaultEff, .writeConfig
          { cfg with proxies := mapSet cfg.proxies providerName proxyUrl }],
       .ok ())
    else ([vaultEff], .error .invalidHostname)
  | _, _ =>
    match findProviderBySecretName name with
    | none => ([vaultEff], .ok ())
    | some (providerName, _) =>
      match providerProxyUrl providerName opts.proxyHost with
      | .error e => ([vaultEff], .error e)
      | .ok none => ([vaultEff], .ok ())
      | .ok (some proxyUrl) =>
        match mapLookup cfg.proxies providerName with
        | some existing =>
          if existing = "" then
            ([vaultEff, .writeConfig
                { cfg with proxies := mapSet cfg.proxies providerName proxyUrl }],
             .ok ())
          else ([vaultEff], .ok ())
        | none =>
          ([vaultEff, .writeConfig
              { cfg with proxies := mapSet cfg.proxies providerName proxyUrl }],
           .ok ())

/-- `vault add <name> [value]`: validate the name and the
`--port`/`--provider` pairing, require a configured public key, decrypt
the existing vault (or start fresh when the file is absent), upsert the
secret, re-encrypt, then run the proxy-configuration step. -/
def vaultAdd (name value : String) (opts : AddOpts) (w : World) :
    List Effect × Except CmdError Unit :=
  if ¬ validSecretName name then ([], .error .invalidName)
  else if opts.port.isSome ≠ opts.provider.isSome then
    ([], .error .portProviderTogether)
  else if opts.port.elim false (fun p => p < 1 ∨ 65535 < p) then
    ([], .error .invalidPort)
  else if opts.provider.elim false (fun p => ¬ validProviderName p) then
    ([], .error .invalidProvider)
  else
    match w.config.publicKey with
    | none => ([], .error .missingPublicKey)
    | some _ =>
      let secrets := w.vaultFile.getD []
      let secrets' := mapSet secrets name value
      let vaultEff := Effect.writeVault secrets'
      if ¬ opts.proxy then ([vaultEff], .ok ())
      else vaultAddProxyStep name opts w.config vaultEff

/-! ## `vault remove` -/

/-- `vault remove <name>`: validate the name, require a public key and an
existing vault file, error `NotFound` when the secret is absent,
otherwise delete, re-encrypt, and drop a matching (truthy) proxy mapping. -/
def vaultRemove (name : String) (w : World) :
    List Effect × Except CmdError Unit :=
  if ¬ validSecretName name then ([], .error .invalidName)
  else
    match w.config.publicKey with
    | none => ([], .error .missingPublicKey)
    | some _ =>
      match w.vaultFile with
      | none => ([], .error .vaultFileNotFound)
      | some secrets =>
        match mapLookup secrets name with
        | none => ([], .error .secretNotFound)
        | some _ =>
          let vaultEff := Effect.writeVault (mapDelete secrets name)
          match findProviderBySecretName name with
          | none => ([vaultEff], .ok ())
          | some (providerName, _) =>
            match mapLookup w.config.proxies providerName with
            | none => ([vaultEff], .ok ())
            | some url =>
              if url = "" then ([vaultEff], .ok ())
              else
                ([vaultEff, .writeConfig
                    { w.config with
                      proxies := mapDelete w.config.proxies providerName }],
                 .ok ())

/-! ## `vault migrate` -/

/-- The sentinel `apiKey` value meaning "already proxy-managed"
(`VAULT_PROXY_PLACEHOLDER_KEY` from `agents/model-auth.ts`; its literal
value is fixed by the CLI tests). -/
def VAULT_PROXY_PLACEHOLDER_KEY : String := "vault-proxy-managed"

/-- An age keypair as drawn by `generateKeypair`. -/
structure AgeKeypair where
  identity : String
  recipient : String
deriving DecidableEq

/-- One row of `migrate`'s plan: provider, plaintext key, secret name. -/
structure MigEntry where
  providerName : String
  apiKey : String
  secretName : String
deriving DecidableEq

/-- The fallback secret name
`providerName.toUpperCase().replace(/[^A-Z0-9]/g, "_") + "_API_KEY"`. -/
def fallbackSecretName (providerName : String) : String :=
  String.mk ((jsToUpper providerName).toList.map
    (fun c => if isAsciiUpper c || isAsciiDigit c then c else '_')) ++
  "_API_KEY"

/-- The secret name `migrate` uses: the registry default if known, else
the fallback. -/
def migSecretName (providerName : String) : String :=
  match providerSecretName providerName with
  | some n => n
  | none => fallbackSecretName providerName

/-- `migrate`'s eligibility scan over `models.providers`, in order:
skip entries without an `apiKey`, with an empty one, or with the
proxy-managed sentinel; call `providerProxyUrl` (which throws on an
invalid host for registry providers) and skip providers without a proxy
mapping; collect the rest. -/
def scanProviders (proxyHost : String) :
    List (String × ProviderCfg) → Except CmdError (List MigEntry)
  | [] => .ok []
  | p :: rest =>
    match p.2.apiKey with
    | none => scanProviders proxyHost rest
    | some key =>
      if key = "" ∨ key = VAULT_PROXY_PLACEHOLDER_KEY then
        scanProviders proxyHost rest
      else
        match providerProxyUrl p.1 proxyHost with
        | .error e => .error e
        | .ok none => scanProviders proxyHost rest
        | .ok (some _) =>
          match scanProviders proxyHost rest with
          | .error e => .error e
          | .ok tail => .ok (⟨p.1, key, migSecretName p.1⟩ :: tail)

/-- The accumulator loop of `buildDefaultProxyMap`. -/
def buildDefaultProxyMapGo (proxyHost : String)
    (acc : List (String × String)) :
    List (String × VaultProviderEntry) → Except CmdError (List (String × String))
  | [] => .ok acc
  | (name, _) :: rest =>
    match providerProxyUrl name proxyHost with
    | .error e => .error e
    | .ok none => buildDefaultProxyMapGo proxyHost acc rest
    | .ok (some url) =>
      buildDefaultProxyMapGo proxyHost (mapSet acc name url) rest

/-- `buildDefaultProxyMap`: the default proxy URL for every registry
provider (host validation still throws on a bad host). -/
def buildDefaultProxyMap (proxyHost : String) :
    Except CmdError (List (String × String)) :=
  buildDefaultProxyMapGo proxyHost [] VAULT_PROVIDER_DEFAULTS

/-- The secret-upsert half of `migrate`'s main loop:
`secrets.set(secretName, apiKey)` for every migrated entry. -/
def migrateSecrets (base : List (String × String))
    (toMigrate : List MigEntry) : List (String × String) :=
  toMigrate.foldl (fun acc m => mapSet acc m.secretName m.apiKey) base

/-- The proxy-mapping half of `migrate`'s main loop, starting from the
defaults: `proxyMappings[providerName] = proxyUrl` when the provider has
one.  (For entries produced by a successful scan the recomputed
`providerProxyUrl` cannot throw; the catch-all keeps the map total.) -/
def migrateProxyMappings (proxyHost : String)
    (defaults : List (String × String)) (toMigrate : List MigEntry) :
    List (String × String) :=
  toMigrate.foldl
    (fun acc m =>
      match providerProxyUrl m.providerName proxyHost with
      | .ok (some url) => mapSet acc m.providerName url
      | _ => acc)
    defaults

/-- Strip the `apiKey` field from the provider entry with this key
(rest-destructuring in the config rewrite). -/
def stripAt (providerName : String) (p : String × ProviderCfg) :
    String × ProviderCfg :=
  if p.1 = providerName then (p.1, { p.2 with apiKey := none }) else p

/-- The config-rewrite loop of `migrate`: remove the plaintext `apiKey`
of every migrated provider. -/
def stripProviders (providers : List (String × ProviderCfg))
    (toMigrate : List MigEntry) : List (String × ProviderCfg) :=
  toMigrate.foldl (fun ps m => ps.map (stripAt m.providerName)) providers

/-- The non-dry-run tail of `migrate` once the scan found something:
initialize a vault (empty write, fresh keypair) when no public key is
configured, decrypt the existing vault otherwise, merge the migrated
secrets, re-encrypt, and rewrite the configuration (enabled flag, public
key, proxies with migrated mappings overriding, stripped providers). -/
def vaultMigrateApply (proxyHost : String) (fresh : AgeKeypair) (w : World)
    (toMigrate : List MigEntry) (defaultProxies : List (String × String)) :
    List Effect × Except CmdError Unit :=
  let generated := w.config.publicKey.isNone
  let publicKey := w.config.publicKey.getD fresh.recipient
  let initEffs : List Effect := if generated then [.writeVault []] else []
  let fileExists := w.vaultFile.isSome || generated
  let secrets :=
    if fileExists then
      if ¬ generated then w.vaultFile.getD [] else []
    else []
  let secrets' := migrateSecrets secrets toMigrate
  let proxyMappings := migrateProxyMappings proxyHost defaultProxies toMigrate
  let cfg' : OCConfig :=
    { vaultEnabled := some true
      publicKey := some publicKey
      proxies := spreadMerge w.config.proxies proxyMappings
      providers := stripProviders w.config.providers toMigrate }
  (initEffs ++ [.writeVault secrets', .writeConfig cfg'], .ok ())

/-- `vault migrate`: report when no providers are configured; scan for
eligible plaintext keys; when none are found, still merge the default
proxy mappings into the configuration (existing entries win) unless this
is a dry run; otherwise (unless a dry run) run the migration tail. -/
def vaultMigrate (dryRun : Bool) (proxyHost : String) (fresh : AgeKeypair)
    (w : World) : List Effect × Except CmdError Unit :=
  if w.config.providers.isEmpty then ([], .ok ())
  else
    match scanProviders proxyHost w.config.providers with
    | .error e => ([], .error e)
    | .ok toMigrate =>
      match buildDefaultProxyMap proxyHost with
      | .error e => ([], .error e)
      | .ok defaultProxies =>
        if toMigrate.isEmpty then
          if dryRun then ([], .ok ())
          else
            ([.writeConfig
                { w.config with
                  proxies := spreadMerge defaultProxies w.config.proxies }],
             .ok ())
        else if dryRun then ([], .ok ())
        else vaultMigrateApply proxyHost fresh w toMigrate defaultProxies

/-- The pure characterization of one scan step, used to state which
providers are eligible (equal to the scan under a valid host). -/
def migEntryPure (p : String × ProviderCfg) : Option MigEntry :=
  match p.2.apiKey with
  | none => none
  | some key =>
    if key = "" ∨ key = VAULT_PROXY_PLACEHOLDER_KEY then none
    else
      match mapLookup VAULT_PROVIDER_DEFAULTS (jsToLower p.1) with
      | none => none
      | some _ => some ⟨p.1, key, migSecretName p.1⟩

/-- The providers `migrate` migrates, as a pure function of the list. -/
def eligibleProviders (providers : List (String × ProviderCfg)) :
    List MigEntry :=
  providers.filterMap migEntryPure

/-- The SecretSet `migrate` starts its merge from: the decrypted
existing vault when a public key is configured, the empty set otherwise
(in that case `migrate` generates a fresh keypair and overwrites the
vault file with an empty one before merging). -/
def migrateBaseSecrets (w : World) : List (String × String) :=
  match w.config.publicKey with
  | some _ => w.vaultFile.getD []
  | none => []

/-- A value has no leading or trailing JS whitespace (the values the
round-trip law can preserve, since parsing trims each side of the `=`). -/
def noEdgeWs (v : List Char) : Bool :=
  (match v.head? with
   | some c => !isJsWhitespace c
   | none => true) &&
  (match v.getLast? with
   | some c => !isJsWhitespace c
   | none => true)

/-! ## Helper lemmas: association lists -/

theorem mapLookup_mapSet {α : Type} (m : List (String × α)) (k : String)
    (v : α) (k' : String) :
    mapLookup (mapSet m k v) k' = if k = k' then some v else mapLookup m k' := by
  induction m with
  | nil => rfl
  | cons p r ih =>
    simp only [mapSet]
    by_cases hp : p.1 = k
    · rw [if_pos hp]
      by_cases h : k = k'
      · simp [mapLookup, h]
      · have hpk' : ¬ p.1 = k' := by rw [hp]; exact h
        simp [mapLookup, h, hpk']
    · rw [if_neg hp]
      by_cases hpk' : p.1 = k'
      · have h : ¬ k = k' := by rw [← hpk']; exact fun hh => hp hh.symm
        simp [mapLookup, hpk', h]
      · simp [mapLookup, hpk', ih]

theorem mapLookup_eq_none_iff {α : Type} (m : List (String × α)) (k : String) :
    mapLookup m k = none ↔ k ∉ m.map Prod.fst := by
  induction m with
  | nil => simp [mapLookup]
  | cons p r ih =>
    by_cases hp : p.1 = k
    · simp [mapLookup, hp]
    · have : ¬ k = p.1 := fun h => hp h.symm
      simp [mapLookup, hp, ih, this]

theorem mapSet_eq_append_of_not_mem {α : Type} (m : List (String × α))
    (k : String) (v : α) (h : k ∉ m.map Prod.fst) :
    mapSet m k v = m ++ [(k, v)] := by
  induction m with
  | nil => simp [mapSet]
  | cons p r ih =>
    simp only [List.map_cons, List.mem_cons, not_or] at h
    have hp : ¬ p.1 = k := fun hh => h.1 hh.symm
    simp [mapSet, hp, ih h.2]

theorem keys_mapSet {α : Type} (m : List (String × α)) (k : String) (v : α) :
    (mapSet m k v).map Prod.fst =
      if k ∈ m.map Prod.fst then m.map Prod.fst else m.map Prod.fst ++ [k] := by
  induction m with
  | nil => simp [mapSet]
  | cons p r ih =>
    by_cases hp : p.1 = k
    · simp [mapSet, hp]
    · have hkp : ¬ k = p.1 := fun h => hp h.symm
      by_cases hk : k ∈ r.map Prod.fst <;>
        simp [mapSet, hp, ih, hk, hkp]

theorem keys_mapSet_nodup {α : Type} (m : List (String × α)) (k : String)
    (v : α) (h : (m.map Prod.fst).Nodup) :
    ((mapSet m k v).map Prod.fst).Nodup := by
  rw [keys_mapSet]
  by_cases hk : k ∈ m.map Prod.fst
  · simpa [hk] using h
  · rw [if_neg hk, List.nodup_append]
    refine ⟨h, List.nodup_singleton k, ?_⟩
    intro a ha hak
    simp only [List.mem_singleton] at hak
    exact hk (hak ▸ ha)

theorem mapLookup_spreadMerge_of_none {α : Type}
    (overlay : List (String × α)) (k : String) :
    ∀ base : List (String × α), mapLookup overlay k = none →
      mapLookup (spreadMerge base overlay) k = mapLookup base k := by
  induction overlay with
  | nil => intro base _; simp [spreadMerge]
  | cons p r ih =>
    intro base h
    simp only [mapLookup] at h
    by_cases hp : p.1 = k
    · rw [if_pos hp] at h
      exact absurd h (by simp)
    · rw [if_neg hp] at h
      simp only [spreadMerge, List.foldl_cons]
      have := ih (mapSet base p.1 p.2) h
      simp only [spreadMerge] at this
      rw [this, mapLookup_mapSet, if_neg hp]

theorem mapLookup_spreadMerge_of_some {α : Type}
    (overlay : List (String × α)) (k : String) (v : α) :
    ∀ base : List (String × α), (overlay.map Prod.fst).Nodup →
      mapLookup overlay k = some v →
      mapLookup (spreadMerge base overlay) k = some v := by
  induction overlay with
  | nil => intro base _ h; simp [mapLookup] at h
  | cons p r ih =>
    intro base hnodup h
    simp only [List.map_cons, List.nodup_cons] at hnodup
    simp only [mapLookup] at h
    by_cases hp : p.1 = k
    · rw [if_pos hp] at h
      have hrk : mapLookup r k = none := by
        rw [mapLookup_eq_none_iff]
        rw [hp] at hnodup
        exact hnodup.1
      simp only [spreadMerge, List.foldl_cons]
      have := mapLookup_spreadMerge_of_none r k (mapSet base p.1 p.2) hrk
      simp only [spreadMerge] at this
      rw [this, mapLookup_mapSet, if_pos hp, h]
    · rw [if_neg hp] at h
      simpa [spreadMerge] using ih (mapSet base p.1 p.2) hnodup.2 h

theorem mapLookup_spreadMerge_none {α : Type}
    (overlay : List (String × α)) (k : String) :
    ∀ base : List (String × α),
      mapLookup (spreadMerge base overlay) k = none →
      mapLookup base k = none := by
  induction overlay with
  | nil => intro base h; simpa [spreadMerge] using h
  | cons p r ih =>
    intro base h
    simp only [spreadMerge, List.foldl_cons] at h
    have := ih (mapSet base p.1 p.2) h
    rw [mapLookup_mapSet] at this
    by_cases hp : p.1 = k
    · rw [if_pos hp] at this
      exact absurd this (by simp)
    · rwa [if_neg hp] at this

theorem keys_spreadMerge_nodup {α : Type}
    (overlay : List (String × α)) :
    ∀ base : List (String × α), (base.map Prod.fst).Nodup →
      ((spreadMerge base overlay).map Prod.fst).Nodup := by
  induction overlay with
  | nil => intro base h; simpa [spreadMerge] using h
  | cons p r ih =>
    intro base h
    simpa [spreadMerge] using ih (mapSet base p.1 p.2) (keys_mapSet_nodup _ _ _ h)

/-! ## Helper lemmas: character classes -/

theorem not_ws_of_nameChar {c : Char} (h : isNameChar c = true) :
    isJsWhitespace c = false := by
  simp only [isNameChar, isAsciiUpper, isAsciiDigit, Bool.or_eq_true,
    Bool.and_eq_true, decide_eq_true_eq] at h
  simp only [isJsWhitespace, Bool.or_eq_false_iff, Bool.and_eq_false_iff,
    decide_eq_false_iff_not]
  omega

theorem not_ws_of_upper {c : Char} (h : isAsciiUpper c = true) :
    isJsWhitespace c = false := by
  simp only [isAsciiUpper, Bool.and_eq_true, decide_eq_true_eq] at h
  simp only [isJsWhitespace, Bool.or_eq_false_iff, Bool.and_eq_false_iff,
    decide_eq_false_iff_not]
  omega

theorem ne_hash_of_upper {c : Char} (h : isAsciiUpper c = true) : c ≠ '#' := by
  intro hc
  subst hc
  exact absurd h (by decide)

theorem ne_eq_of_nameChar {c : Char} (h : isNameChar c = true) : c ≠ '=' := by
  intro hc
  subst hc
  exact absurd h (by decide)

theorem nameChar_of_upper {c : Char} (h : isAsciiUpper c = true) :
    isNameChar c = true := by
  simp [isNameChar, h]

/-! ## Helper lemmas: trimming -/

theorem dropWhile_eq_self_of_head {α : Type} (p : α → Bool) (l : List α)
    (h : ∀ c, l.head? = some c → p c = false) : l.dropWhile p = l := by
  cases l with
  | nil => rfl
  | cons a t => simp [List.dropWhile_cons, h a rfl]

theorem trimEnd_eq_self (l : List Char)
    (h : ∀ c, l.getLast? = some c → isJsWhitespace c = false) :
    trimEnd l = l := by
  rw [trimEnd, dropWhile_eq_self_of_head _ _ (by
    intro c hc
    exact h c (by rwa [List.head?_reverse] at hc)), List.reverse_reverse]

theorem trimChars_eq_self (l : List Char)
    (hhead : ∀ c, l.head? = some c → isJsWhitespace c = false)
    (hlast : ∀ c, l.getLast? = some c → isJsWhitespace c = false) :
    trimChars l = l := by
  rw [trimChars, trimEnd_eq_self l hlast, dropWhile_eq_self_of_head _ _ hhead]

theorem ws_of_trimChars_eq_nil (l : List Char) (h : trimChars l = [])
    {c : Char} (hc : c ∈ l) : isJsWhitespace c = true := by
  rw [trimChars, List.dropWhile_eq_nil_iff] at h
  have hrev : c ∈ l.reverse := List.mem_reverse.mpr hc
  rw [← List.takeWhile_append_dropWhile isJsWhitespace l.reverse,
    List.mem_append] at hrev
  rcases hrev with htake | hdrop
  · exact List.mem_takeWhile_imp htake
  · exact h c (by rw [trimEnd]; exact List.mem_reverse.mpr hdrop)

theorem trimChars_ne_nil (c : Char) (t : List Char)
    (h : isJsWhitespace c = false) : trimChars (c :: t) ≠ [] := by
  intro hnil
  have := ws_of_trimChars_eq_nil (c :: t) hnil (List.mem_cons_self c t)
  rw [h] at this
  cases this

/-! ## Helper lemmas: line splitting and joining -/

theorem splitNl_ne_nil (l : List Char) : splitNl l ≠ [] := by
  induction l with
  | nil => simp [splitNl]
  | cons c rest ih =>
    simp only [splitNl]
    by_cases h : c = '\n'
    · simp [h]
    · rw [if_neg h]
      cases hr : splitNl rest with
      | nil => simp
      | cons a as => simp

theorem splitNl_append (l s : List Char) (h : '\n' ∉ l) :
    splitNl (l ++ '\n' :: s) = l :: splitNl s := by
  induction l with
  | nil => simp [splitNl]
  | cons c t ih =>
    simp only [List.mem_cons, not_or] at h
    have hc : ¬ c = '\n' := fun hh => h.1 hh.symm
    simp only [List.cons_append, splitNl, List.append_eq]
    rw [if_neg hc, ih h.2]

theorem splitNl_joinNl (lines : List (List Char)) (hne : lines ≠ [])
    (h : ∀ l ∈ lines, '\n' ∉ l) :
    splitNl (joinNl lines ++ ['\n']) = lines ++ [[]] := by
  induction lines with
  | nil => exact absurd rfl hne
  | cons l rest ih =>
    cases rest with
    | nil =>
      rw [joinNl]
      have : splitNl (l ++ '\n' :: []) = l :: splitNl [] :=
        splitNl_append l [] (h l (List.mem_cons_self l []))
      simpa [splitNl] using this
    | cons l₂ rest₂ =>
      have h₂ : ∀ x ∈ l₂ :: rest₂, '\n' ∉ x :=
        fun x hx => h x (List.mem_cons_of_mem l hx)
      simp only [joinNl]
      rw [List.append_assoc, List.cons_append,
        splitNl_append l _ (h l (List.mem_cons_self l _)),
        ih (List.cons_ne_nil l₂ rest₂) h₂]
      simp

/-! ## Helper lemmas: finding the first `=` -/

theorem firstEq_append (k v : List Char) (h : '=' ∉ k) :
    firstEq (k ++ '=' :: v) = some k.length := by
  induction k with
  | nil => simp [firstEq]
  | cons c t ih =>
    simp only [List.mem_cons, not_or] at h
    have hc : ¬ c = '=' := fun hh => h.1 hh.symm
    simp [firstEq, hc, ih h.2]

/-! ## Helper lemmas: parsing a serialized line back -/

theorem mem_of_getLast?_eq_some {α : Type} {l : List α} {a : α}
    (h : l.getLast? = some a) : a ∈ l := by
  obtain ⟨hne, rfl⟩ := List.mem_getLast?_eq_getLast (Option.mem_def.mpr h)
  exact List.getLast_mem hne

theorem noEdgeWs_head {v : List Char} (h : noEdgeWs v = true) :
    ∀ c, v.head? = some c → isJsWhitespace c = false := by
  intro c hc
  rw [noEdgeWs, Bool.and_eq_true] at h
  have := h.1
  rw [hc] at this
  simpa using this

theorem noEdgeWs_last {v : List Char} (h : noEdgeWs v = true) :
    ∀ c, v.getLast? = some c → isJsWhitespace c = false := by
  intro c hc
  rw [noEdgeWs, Bool.and_eq_true] at h
  have := h.2
  rw [hc] at this
  simpa using this

theorem validSecretName_toList {s : String} (h : validSecretName s = true) :
    s.toList ≠ [] ∧
    (∀ c, s.toList.head? = some c → isAsciiUpper c = true) ∧
    (∀ c ∈ s.toList, isNameChar c = true) := by
  rw [validSecretName] at h
  cases hs : s.toList with
  | nil => rw [hs] at h; cases h
  | cons c rest =>
    rw [hs, Bool.and_eq_true] at h
    refine ⟨by simp, ?_, ?_⟩
    · intro c' hc'
      simp only [List.head?_cons, Option.some_inj] at hc'
      exact hc' ▸ h.1
    · intro c' hc'
      rcases List.mem_cons.mp hc' with rfl | hmem
      · exact nameChar_of_upper h.1
      · exact List.all_eq_true.mp h.2 c' hmem

theorem stringMk_toList (s : String) : String.mk s.toList = s := rfl

theorem parseLine_nil : parseLine [] = none := rfl

/-- A serialized `KEY=value` line parses back to exactly its key and
value, provided the key is a valid secret name and the value has no edge
whitespace and is not quote-wrapped. -/
theorem parseLine_serialized (k v : List Char)
    (hkne : k ≠ [])
    (hkhead : ∀ c, k.head? = some c → isAsciiUpper c = true)
    (hkall : ∀ c ∈ k, isNameChar c = true)
    (hv : noEdgeWs v = true)
    (hq : quoteWrapped v = false) :
    parseLine (k ++ '=' :: v) = some (k, v) := by
  obtain ⟨c₀, k', rfl⟩ : ∃ c₀ k', k = c₀ :: k' := by
    cases k with
    | nil => exact absurd rfl hkne
    | cons a b => exact ⟨a, b, rfl⟩
  have hup : isAsciiUpper c₀ = true := hkhead c₀ rfl
  have hne_eq : '=' ∉ c₀ :: k' := by
    intro hmem
    exact ne_eq_of_nameChar (hkall '=' hmem) rfl
  have hline : trimChars ((c₀ :: k') ++ '=' :: v) = (c₀ :: k') ++ '=' :: v := by
    apply trimChars_eq_self
    · intro c hc
      simp only [List.cons_append, List.head?_cons, Option.some_inj] at hc
      exact hc ▸ not_ws_of_upper hup
    · intro c hc
      rw [List.getLast?_append_cons] at hc
      cases v with
      | nil =>
        simp only [List.getLast?_singleton, Option.some_inj] at hc
        subst hc
        decide
      | cons a v' =>
        rw [List.getLast?_cons_cons] at hc
        exact noEdgeWs_last hv c hc
  have hkey : trimChars (c₀ :: k') = c₀ :: k' := by
    apply trimChars_eq_self
    · intro c hc
      simp only [List.head?_cons, Option.some_inj] at hc
      exact hc ▸ not_ws_of_upper hup
    · intro c hc
      exact not_ws_of_nameChar (hkall c (mem_of_getLast?_eq_some hc))
  have hval : trimChars v = v :=
    trimChars_eq_self v (noEdgeWs_head hv) (noEdgeWs_last hv)
  have hfe : firstEq ((c₀ :: k') ++ '=' :: v) = some (c₀ :: k').length :=
    firstEq_append _ v hne_eq
  have hdrop : ((c₀ :: k') ++ '=' :: v).drop ((c₀ :: k').length + 1) = v := by
    have : (c₀ :: k') ++ '=' :: v = ((c₀ :: k') ++ ['=']) ++ v := by simp
    rw [this]
    have hlen : ((c₀ :: k') ++ ['=']).length = (c₀ :: k').length + 1 := by simp
    rw [← hlen, List.drop_left]
  have htake : ((c₀ :: k') ++ '=' :: v).take (c₀ :: k').length = c₀ :: k' :=
    List.take_left _ _
  have hhead : ¬ ((c₀ :: k') ++ '=' :: v).head? = some '#' := by
    simp only [List.cons_append, List.head?_cons, Option.some_inj]
    exact fun hh => ne_hash_of_upper hup hh
  have hlt : ¬ (c₀ :: k').length < 1 := by simp
  simp only [parseLine, hline, hfe]
  rw [if_neg (by simp), if_neg hhead, if_neg hlt, htake, hkey, hdrop, hval]
  simp [stripQuotesChars, hq]

/-- Parsing a serialized pair appends it to the accumulator when its key
is fresh. -/
theorem parseStep_serialized (p : String × String)
    (acc : List (String × String))
    (h : parseLine (serializeLine p) = some (p.1.toList, p.2.toList))
    (hnm : p.1 ∉ acc.map Prod.fst) :
    parseStep acc (serializeLine p) = acc ++ [p] := by
  rw [parseStep, h]
  simp only [stringMk_toList]
  exact mapSet_eq_append_of_not_mem acc p.1 p.2 hnm

theorem foldl_parseStep_serialized (s : List (String × String)) :
    ∀ acc : List (String × String),
      (∀ p ∈ s, parseLine (serializeLine p) = some (p.1.toList, p.2.toList)) →
      (∀ p ∈ s, p.1 ∉ acc.map Prod.fst) →
      ((s.map Prod.fst).Nodup) →
      (s.map serializeLine).foldl parseStep acc = acc ++ s := by
  induction s with
  | nil => intro acc _ _ _; simp
  | cons p rest ih =>
    intro acc hlines hdisj hnd
    simp only [List.map_cons, List.nodup_cons] at hnd
    rw [List.map_cons, List.foldl_cons,
      parseStep_serialized p acc (hlines p (List.mem_cons_self p rest))
        (hdisj p (List.mem_cons_self p rest)),
      ih (acc ++ [p])
        (fun q hq => hlines q (List.mem_cons_of_mem p hq))
        (fun q hq => by
          simp only [List.map_append, List.mem_append, List.map_cons,
            List.map_nil, List.mem_singleton, not_or]
          refine ⟨hdisj q (List.mem_cons_of_mem p hq), ?_⟩
          intro heq
          exact hnd.1 (heq ▸ List.mem_map_of_mem Prod.fst hq))
        hnd.2]
    simp

theorem head_dropWhile_not {α : Type} (p : α → Bool) (l : List α) {c : α}
    {t : List α} (h : l.dropWhile p = c :: t) : p c = false := by
  induction l with
  | nil => cases h
  | cons a r ih =>
    rw [List.dropWhile_cons] at h
    by_cases hp : p a = true
    · rw [if_pos hp] at h
      exact ih h
    · rw [if_neg hp] at h
      obtain ⟨rfl, -⟩ := List.cons.inj h
      exact Bool.not_eq_true _ ▸ hp

theorem parseLine_key_ne_nil (raw k v : List Char)
    (h : parseLine raw = some (k, v)) : k ≠ [] := by
  simp only [parseLine] at h
  split at h
  · exact Option.noConfusion h
  next hempty =>
    split at h
    · exact Option.noConfusion h
    next hhash =>
      split at h
      · exact Option.noConfusion h
      next i hfe =>
        split at h
        · exact Option.noConfusion h
        next hlt =>
          obtain ⟨hk, -⟩ := Prod.mk.inj (Option.some.inj h)
          obtain ⟨c, t, hct⟩ : ∃ c t, trimChars raw = c :: t := by
            cases hraw : trimChars raw with
            | nil => rw [hraw] at hempty; exact absurd rfl hempty
            | cons a b => exact ⟨a, b, rfl⟩
          have hwc : isJsWhitespace c = false := by
            rw [trimChars] at hct
            exact head_dropWhile_not isJsWhitespace (trimEnd raw) hct
          obtain ⟨j, rfl⟩ : ∃ j, i = j + 1 := by
            cases i with
            | zero => exact absurd (by omega) hlt
            | succ j => exact ⟨j, rfl⟩
          rw [hct, List.take_succ_cons] at hk
          exact hk ▸ trimChars_ne_nil c (t.take j) hwc

theorem mem_mapSet {α : Type} (m : List (String × α)) (k : String) (v : α) :
    ∀ q ∈ mapSet m k v, q ∈ m ∨ q.1 = k := by
  induction m with
  | nil =>
    intro q hq
    simp only [mapSet, List.mem_singleton] at hq
    exact Or.inr (hq ▸ rfl)
  | cons p r ih =>
    intro q hq
    simp only [mapSet] at hq
    by_cases hp : p.1 = k
    · rw [if_pos hp] at hq
      rcases List.mem_cons.mp hq with rfl | hmem
      · exact Or.inr rfl
      · exact Or.inl (List.mem_cons_of_mem p hmem)
    · rw [if_neg hp] at hq
      rcases List.mem_cons.mp hq with rfl | hmem
      · exact Or.inl (List.mem_cons_self q r)
      · rcases ih q hmem with hin | hk
        · exact Or.inl (List.mem_cons_of_mem p hin)
        · exact Or.inr hk

theorem foldl_parseStep_keys_ne (lines : List (List Char)) :
    ∀ acc : List (String × String), (∀ kv ∈ acc, kv.1 ≠ "") →
      ∀ kv ∈ lines.foldl parseStep acc, kv.1 ≠ "" := by
  induction lines with
  | nil => intro acc h kv hm; exact h kv hm
  | cons raw rest ih =>
    intro acc h kv hm
    refine ih (parseStep acc raw) ?_ kv hm
    intro q hq
    rw [parseStep] at hq
    cases hp : parseLine raw with
    | none =>
      rw [hp] at hq
      exact h q hq
    | some kv' =>
      rw [hp] at hq
      rcases mem_mapSet acc (String.mk kv'.1) (String.mk kv'.2) q hq with hin | hk
      · exact h q hin
      · rw [hk]
        intro hnil
        exact parseLine_key_ne_nil raw kv'.1 kv'.2 (by rw [hp]) (congrArg String.toList hnil)

/-! ## Claim C1 -/

/-- C1, counterexample: the round-trip law fails as stated.  The
SecretSet `[("A", " x")]` has a valid name and a newline-free value, yet
serializing gives `"A= x\n"` and parsing trims the value back to `"x"`,
so `parse(serialize(s)) ≠ s`. -/
theorem C1_roundtrip_counterexample :
    validSecretName "A" = true ∧
    '\n' ∉ (" x" : String).toList ∧
    parseVaultSecrets (serializeVaultSecrets [("A", " x")]) ≠ [("A", " x")] :=
  ⟨by decide, by decide, by decide⟩

/-- C1 (amended): `parse(serialize(s)) = s` for every SecretSet whose
names are valid and pairwise distinct and whose values contain no raw
newline, carry no leading or trailing JS whitespace, and are not wrapped
in a matching pair of single or double quotes. -/
theorem C1_parse_serialize_roundtrip (s : List (String × String))
    (hname : ∀ p ∈ s, validSecretName p.1 = true)
    (hnodup : (s.map Prod.fst).Nodup)
    (hval : ∀ p ∈ s, '\n' ∉ p.2.toList ∧ noEdgeWs p.2.toList = true ∧
      quoteWrapped p.2.toList = false) :
    parseVaultSecrets (serializeVaultSecrets s) = s := by
  cases s with
  | nil => rfl
  | cons p rest =>
    have hnl : ∀ l ∈ (p :: rest).map serializeLine, '\n' ∉ l := by
      intro l hl
      obtain ⟨q, hq, rfl⟩ := List.mem_map.mp hl
      intro hmem
      rw [serializeLine] at hmem
      rcases List.mem_append.mp hmem with hk | hv'
      · obtain ⟨-, -, hall⟩ := validSecretName_toList (hname q hq)
        exact absurd (hall '\n' hk) (by decide)
      · rcases List.mem_cons.mp hv' with heq | hv''
        · exact absurd heq (by decide)
        · exact (hval q hq).1 hv''
    rw [serializeVaultSecrets, if_neg (by simp)]
    rw [parseVaultSecrets]
    have htl : (String.mk (joinNl ((p :: rest).map serializeLine) ++ ['\n'])).toList
        = joinNl ((p :: rest).map serializeLine) ++ ['\n'] := rfl
    rw [htl, splitNl_joinNl _ (by simp) hnl, List.foldl_append]
    have hlast : List.foldl parseStep
        (((p :: rest).map serializeLine).foldl parseStep []) [[]]
        = ((p :: rest).map serializeLine).foldl parseStep [] := by
      simp [parseStep, parseLine_nil]
    rw [hlast, foldl_parseStep_serialized (p :: rest) []
      (by
        intro q hq
        obtain ⟨hne, hhead, hall⟩ := validSecretName_toList (hname q hq)
        exact parseLine_serialized q.1.toList q.2.toList hne hhead hall
          (hval q hq).2.1 (hval q hq).2.2)
      (by intro q hq; simp)
      hnodup]
    simp

/-- C1, witness for the amended round-trip theorem at a concrete
two-secret set (one value even contains an embedded `=`). -/
theorem C1_roundtrip_witness :
    parseVaultSecrets (serializeVaultSecrets [("A", "x"), ("KEY_2", "a=b")])
      = [("A", "x"), ("KEY_2", "a=b")] :=
  C1_parse_serialize_roundtrip [("A", "x"), ("KEY_2", "a=b")]
    (by decide) (by decide) (by decide)

/-! ## Claim C10 -/

/-- C10: every key produced by `parseVaultSecrets` is non-empty — for
every input string — and a line whose first `=` sits at index 0, like a
line with no `=` at all, is silently skipped. -/
theorem C10_parse_keys_nonempty :
    (∀ plaintext : String, ∀ kv ∈ parseVaultSecrets plaintext, kv.1 ≠ "") ∧
    parseVaultSecrets "=value" = [] ∧
    parseVaultSecrets "novalue" = [] := by
  refine ⟨?_, by decide, by decide⟩
  intro plaintext kv hm
  exact foldl_parseStep_keys_ne (splitNl plaintext.toList) [] (by simp) kv hm

/-- C10, witness: the non-emptiness fact applied at a concrete parse. -/
theorem C10_parse_keys_nonempty_witness : ("A" : String) ≠ "" :=
  C10_parse_keys_nonempty.1 "A=1" ("A", "1") (by decide)

/-! ## Claim C2 -/

/-- C2: `decryptVault` fails with `NotFound` exactly when the file is
absent, and with `DecryptionFailed` wrapping the underlying cause when
decryption throws.  In the failure branch no plaintext exists and the
message is a fixed function of the cause alone; its fixed text suggests
both corruption and a wrong key, without distinguishing them. -/
theorem C2_decryptVault_errors :
    (∀ (fsRead : String → Option String)
       (ageDecrypt : String → String → Except String String)
       (path key : String), fsRead path = none →
       decryptVault fsRead ageDecrypt path key =
         .error (.notFound ("Vault file not found: " ++ path))) ∧
    (∀ (fsRead : String → Option String)
       (ageDecrypt : String → String → Except String String)
       (path key ciphertext cause : String),
       fsRead path = some ciphertext →
       ageDecrypt key ciphertext = .error cause →
       decryptVault fsRead ageDecrypt path key =
         .error (.decryptionFailed (decryptFailureMessage cause) cause)) ∧
    (∀ cause : String,
       List.IsInfix ("may be corrupted" : String).toList
         (decryptFailureMessage cause).toList ∧
       List.IsInfix ("key may be wrong" : String).toList
         (decryptFailureMessage cause).toList) := by
  refine ⟨?_, ?_, ?_⟩
  · intro fsRead ageDecrypt path key h
    rw [decryptVault, h]
  · intro fsRead ageDecrypt path key ciphertext cause hf hd
    simp only [decryptVault, hf, hd]
  · intro cause
    have hsplit1 : decryptFailureMessage cause =
        ("Failed to decrypt vault: " ++ cause ++ "\nThe vault file ") ++
        "may be corrupted" ++ ", or the decryption key may be wrong." := by
      rw [decryptFailureMessage]
      rw [show ("\nThe vault file may be corrupted, or the decryption key may be wrong." : String)
            = "\nThe vault file " ++ "may be corrupted" ++ ", or the decryption key may be wrong." from rfl]
      simp [String.append_assoc]
    have hsplit2 : decryptFailureMessage cause =
        ("Failed to decrypt vault: " ++ cause ++
          "\nThe vault file may be corrupted, or the decryption ") ++
        "key may be wrong" ++ "." := by
      rw [decryptFailureMessage]
      rw [show ("\nThe vault file may be corrupted, or the decryption key may be wrong." : String)
            = "\nThe vault file may be corrupted, or the decryption " ++ "key may be wrong" ++ "." from rfl]
      simp [String.append_assoc]
    constructor
    · refine ⟨("Failed to decrypt vault: " ++ cause ++ "\nThe vault file ").toList,
        (", or the decryption key may be wrong." : String).toList, ?_⟩
      rw [hsplit1]
      simp [String.data_append]
    · refine ⟨("Failed to decrypt vault: " ++ cause ++
          "\nThe vault file may be corrupted, or the decryption ").toList,
        ("." : String).toList, ?_⟩
      rw [hsplit2]
      simp [String.data_append]

/-- C2, witness: both error branches at concrete oracles. -/
theorem C2_decryptVault_errors_witness :
    decryptVault (fun _ => none) (fun _ _ => .error "boom") "vault.age" "k"
      = .error (.notFound ("Vault file not found: " ++ "vault.age")) ∧
    decryptVault (fun _ => some "ct") (fun _ _ => .error "bad header") "vault.age" "k"
      = .error (.decryptionFailed (decryptFailureMessage "bad header") "bad header") :=
  ⟨C2_decryptVault_errors.1 (fun _ => none) (fun _ _ => .error "boom")
      "vault.age" "k" rfl,
   C2_decryptVault_errors.2.1 (fun _ => some "ct") (fun _ _ => .error "bad header")
      "vault.age" "k" "ct" "bad header" rfl rfl⟩

/-! ## Claim C6 -/

/-- C6: the masking law.  Values of length at most 8 mask to `*` repeated
exactly the value's length; a value of length 9 masks to its first 4
characters, one `*`, and its last 4; longer values keep first and last 4
with `*` filling, and the masked length always equals the original
length; and both the table mode (with `--reveal`) and the JSON mode
(without `--reveal`) apply this same `maskValue` function. -/
theorem C6_maskValue_spec :
    (∀ v : String, v.length ≤ 8 →
       maskValue v = String.mk (List.replicate v.length '*')) ∧
    (∀ v : String, v.length = 9 →
       maskValue v = String.mk (v.toList.take 4 ++ '*' :: v.toList.drop 5)) ∧
    (∀ v : String, 9 ≤ v.length →
       maskValue v = String.mk (v.toList.take 4 ++
         List.replicate (v.length - 8) '*' ++ v.toList.drop (v.length - 4)) ∧
       (maskValue v).length = v.length) ∧
    (∀ v : String, tableCellValue true v = maskValue v ∧
       jsonCellValue false v = maskValue v) := by
  refine ⟨?_, ?_, ?_, ?_⟩
  · intro v h
    rw [maskValue, if_pos h]
  · intro v h
    rw [maskValue, if_neg (by omega), h]
    norm_num
  · intro v h
    constructor
    · rw [maskValue, if_neg (by omega)]
    · rw [maskValue, if_neg (by omega)]
      have hmk : (String.mk (v.toList.take 4 ++
            List.replicate (v.length - 4 * 2) '*' ++
            v.toList.drop (v.length - 4))).length
          = (v.toList.take 4 ++ List.replicate (v.length - 4 * 2) '*' ++
            v.toList.drop (v.length - 4)).length := rfl
      rw [hmk, List.length_append, List.length_append, List.length_take,
        List.length_replicate, List.length_drop]
      have htl : v.toList.length = v.length := rfl
      rw [htl]
      omega
  · intro v
    exact ⟨rfl, rfl⟩

/-- C6, witness: the three length regimes at concrete values. -/
theorem C6_maskValue_spec_witness :
    maskValue "abc" = String.mk (List.replicate ("abc" : String).length '*') ∧
    maskValue "123456789" = String.mk (("123456789" : String).toList.take 4 ++
      '*' :: ("123456789" : String).toList.drop 5) ∧
    maskValue "1234567890ab" = String.mk (("1234567890ab" : String).toList.take 4 ++
      List.replicate (("1234567890ab" : String).length - 8) '*' ++
      ("1234567890ab" : String).toList.drop (("1234567890ab" : String).length - 4)) :=
  ⟨C6_maskValue_spec.1 "abc" (by decide),
   C6_maskValue_spec.2.1 "123456789" (by decide),
   (C6_maskValue_spec.2.2.1 "1234567890ab" (by decide)).1⟩

/-! ## Claim C7 -/

/-- C7: `remove` of a name absent from the decrypted SecretSet fails
with the secret-not-found error and performs no write at all, so the
vault file's contents are unchanged. -/
theorem C7_remove_missing_not_found (w : World) (name pk : String)
    (s : List (String × String))
    (hn : validSecretName name = true)
    (hpk : w.config.publicKey = some pk)
    (hv : w.vaultFile = some s)
    (habs : mapLookup s name = none) :
    vaultRemove name w = ([], .error .secretNotFound) ∧
    (applyEffects w (vaultRemove name w).1).vaultFile = w.vaultFile := by
  have h1 : vaultRemove name w = ([], .error .secretNotFound) := by
    simp [vaultRemove, hn, hpk, hv, habs]
  exact ⟨h1, by rw [h1]; rfl⟩

/-- C7, witness: removing a name from a one-secret vault that does not
contain it. -/
theorem C7_remove_missing_not_found_witness :
    vaultRemove "MISSING_KEY"
      { config := { vaultEnabled := some true, publicKey := some "age1pk",
                    proxies := [], providers := [] },
        vaultFile := some [("OPENAI_API_KEY", "sk")] }
      = ([], .error .secretNotFound) :=
  (C7_remove_missing_not_found
    { config := { vaultEnabled := some true, publicKey := some "age1pk",
                  proxies := [], providers := [] },
      vaultFile := some [("OPENAI_API_KEY", "sk")] }
    "MISSING_KEY" "age1pk" [("OPENAI_API_KEY", "sk")]
    (by decide) rfl rfl (by decide)).1

/-! ## Claim C9 -/

/-- A successful reverse lookup pins down the provider's default proxy
URL (the registry re-lookup by lowercased key succeeds). -/
theorem providerProxyUrl_of_find (name providerName : String)
    (entry : VaultProviderEntry) (host : String)
    (hf : findProviderBySecretName name = some (providerName, entry))
    (hhost : validHostname host = true) :
    providerProxyUrl providerName host = .ok (some (proxyUrlString host entry.port)) := by
  have hmem : (providerName, entry) ∈ VAULT_PROVIDER_DEFAULTS :=
    List.mem_of_find?_eq_some hf
  have hall : ∀ pe ∈ VAULT_PROVIDER_DEFAULTS,
      mapLookup VAULT_PROVIDER_DEFAULTS (jsToLower pe.1) = some pe.2 := by decide
  rw [providerProxyUrl, hall (providerName, entry) hmem]
  simp [hhost]

/-- The registry reverse lookup throws `InvalidHostname` on a bad host. -/
theorem providerProxyUrl_of_find_invalid (name providerName : String)
    (entry : VaultProviderEntry) (host : String)
    (hf : findProviderBySecretName name = some (providerName, entry))
    (hhost : validHostname host = false) :
    providerProxyUrl providerName host = .error .invalidHostname := by
  have hmem : (providerName, entry) ∈ VAULT_PROVIDER_DEFAULTS :=
    List.mem_of_find?_eq_some hf
  have hall : ∀ pe ∈ VAULT_PROVIDER_DEFAULTS,
      mapLookup VAULT_PROVIDER_DEFAULTS (jsToLower pe.1) = some pe.2 := by decide
  rw [providerProxyUrl, hall (providerName, entry) hmem]
  simp [hhost]

/-- C9: `"evil.com/path#"` fails hostname validation, and `vault add`
run with it as the proxy host stops with `InvalidHostname` before any
configuration write — in the explicit `--port`/`--provider` branch and
in the registry auto-configuration branch alike (only the vault upsert,
which precedes host validation, has happened). -/
theorem C9_invalid_host_rejected :
    validHostname "evil.com/path#" = false ∧
    (∀ (w : World) (name value pk providerName : String) (port : Nat),
       validSecretName name = true →
       validProviderName providerName = true →
       1 ≤ port → port ≤ 65535 →
       w.config.publicKey = some pk →
       vaultAdd name value ⟨true, "evil.com/path#", some port, some providerName⟩ w =
         ([Effect.writeVault (mapSet (w.vaultFile.getD []) name value)],
          .error .invalidHostname)) ∧
    (∀ (w : World) (value pk : String),
       w.config.publicKey = some pk →
       vaultAdd "OPENAI_API_KEY" value ⟨true, "evil.com/path#", none, none⟩ w =
         ([Effect.writeVault (mapSet (w.vaultFile.getD []) "OPENAI_API_KEY" value)],
          .error .invalidHostname)) := by
  refine ⟨by decide, ?_, ?_⟩
  · intro w name value pk providerName port hn hp h1 h2 hpk
    have hcond : ¬ (port < 1 ∨ 65535 < port) := by omega
    simp [vaultAdd, hn, hpk, vaultAddProxyStep, hp, hcond,
      show validHostname "evil.com/path#" = false by decide]
    omega
  · intro w value pk hpk
    have hf : findProviderBySecretName "OPENAI_API_KEY"
        = some ("openai", ⟨8081, "OPENAI_API_KEY"⟩) := by decide
    have hurl := providerProxyUrl_of_find_invalid "OPENAI_API_KEY" "openai"
      ⟨8081, "OPENAI_API_KEY"⟩ "evil.com/path#" hf (by decide)
    simp [vaultAdd, hpk, vaultAddProxyStep, hf, hurl,
      show validSecretName "OPENAI_API_KEY" = true by decide]

/-- C9, witness: a concrete run of each branch. -/
theorem C9_invalid_host_rejected_witness :
    vaultAdd "CUSTOM_KEY" "v" ⟨true, "evil.com/path#", some 9999, some "custom-llm"⟩
      { config := { vaultEnabled := some true, publicKey := some "age1pk",
                    proxies := [], providers := [] },
        vaultFile := some [] }
      = ([Effect.writeVault [("CUSTOM_KEY", "v")]], .error .invalidHostname) := by
  have h := C9_invalid_host_rejected.2.1
    { config := { vaultEnabled := some true, publicKey := some "age1pk",
                  proxies := [], providers := [] },
      vaultFile := some [] }
    "CUSTOM_KEY" "v" "age1pk" "custom-llm" 9999
    (by decide) (by decide) (by decide) (by decide) rfl
  simpa [mapSet] using h

/-! ## Claim C8 -/

/-- C8: `add`'s proxy-configuration rules.  (a) `--port` without
`--provider`, or the reverse, errors with the pairing message and writes
nothing.  (b) With both given (valid), the mapping for that provider is
written unconditionally, overwriting any existing one.  (c) Without
them, a registry match auto-writes the provider's default mapping only
when no (truthy) mapping exists yet, so an existing user mapping is
never overwritten. -/
theorem C8_add_proxy_rules :
    (∀ (w : World) (name value host : String) (port : Nat),
       validSecretName name = true →
       vaultAdd name value ⟨true, host, some port, none⟩ w =
         ([], .error .portProviderTogether) ∧
       (∀ providerName : String,
         vaultAdd name value ⟨true, host, none, some providerName⟩ w =
           ([], .error .portProviderTogether))) ∧
    (∀ (w : World) (name value host providerName pk : String) (port : Nat),
       validSecretName name = true →
       validProviderName providerName = true →
       1 ≤ port → port ≤ 65535 →
       validHostname host = true →
       w.config.publicKey = some pk →
       vaultAdd name value ⟨true, host, some port, some providerName⟩ w =
         ([Effect.writeVault (mapSet (w.vaultFile.getD []) name value),
           Effect.writeConfig { w.config with
             proxies := mapSet w.config.proxies providerName
               (proxyUrlString host port) }], .ok ()) ∧
       mapLookup (mapSet w.config.proxies providerName (proxyUrlString host port))
         providerName = some (proxyUrlString host port)) ∧
    (∀ (w : World) (name value host providerName pk : String)
       (entry : VaultProviderEntry),
       validSecretName name = true →
       validHostname host = true →
       w.config.publicKey = some pk →
       findProviderBySecretName name = some (providerName, entry) →
       (∀ u, mapLookup w.config.proxies providerName = some u → u ≠ "" →
          vaultAdd name value ⟨true, host, none, none⟩ w =
            ([Effect.writeVault (mapSet (w.vaultFile.getD []) name value)],
             .ok ())) ∧
       (mapLookup w.config.proxies providerName = none →
          vaultAdd name value ⟨true, host, none, none⟩ w =
            ([Effect.writeVault (mapSet (w.vaultFile.getD []) name value),
              Effect.writeConfig { w.config with
                proxies := mapSet w.config.proxies providerName
                  (proxyUrlString host entry.port) }], .ok ()))) := by
  refine ⟨?_, ?_, ?_⟩
  · intro w name value host port hn
    constructor
    · simp [vaultAdd, hn]
    · intro providerName
      simp [vaultAdd, hn]
  · intro w name value host providerName pk port hn hp h1 h2 hhost hpk
    have hcond : ¬ (port < 1 ∨ 65535 < port) := by omega
    constructor
    · simp [vaultAdd, hn, hp, hcond, hpk, vaultAddProxyStep, hhost]
      omega
    · rw [mapLookup_mapSet, if_pos rfl]
  · intro w name value host providerName pk entry hn hhost hpk hf
    have hurl := providerProxyUrl_of_find name providerName entry host hf hhost
    constructor
    · intro u hu hune
      simp [vaultAdd, hn, hpk, vaultAddProxyStep, hf, hurl, hu, hune]
    · intro hu
      simp [vaultAdd, hn, hpk, vaultAddProxyStep, hf, hurl, hu]

/-- C8, witness: the pairing rule at a concrete invocation. -/
theorem C8_add_proxy_rules_witness :
    vaultAdd "CUSTOM_KEY" "v" ⟨true, "vault", some 9999, none⟩
      { config := { vaultEnabled := some true, publicKey := some "age1pk",
                    proxies := [], providers := [] },
        vaultFile := some [] }
      = ([], .error .portProviderTogether) :=
  (C8_add_proxy_rules.1
    { config := { vaultEnabled := some true, publicKey := some "age1pk",
                  proxies := [], providers := [] },
      vaultFile := some [] }
    "CUSTOM_KEY" "v" "vault" 9999 (by decide)).1

/-! ## Helper lemmas: the migrate scan and its data -/

theorem scanProviders_ok (host : String) (hhost : validHostname host = true) :
    ∀ l : List (String × ProviderCfg),
      scanProviders host l = .ok (eligibleProviders l) := by
  intro l
  induction l with
  | nil => rfl
  | cons p rest ih =>
    rw [scanProviders, eligibleProviders, List.filterMap_cons]
    cases hk : p.2.apiKey with
    | none =>
      simp only [migEntryPure, hk]
      exact ih
    | some key =>
      by_cases hs : key = "" ∨ key = VAULT_PROXY_PLACEHOLDER_KEY
      · simp only [migEntryPure, hk, if_pos hs]
        exact ih
      · cases hr : mapLookup VAULT_PROVIDER_DEFAULTS (jsToLower p.1) with
        | none =>
          simp only [migEntryPure, hk, if_neg hs, hr, providerProxyUrl]
          exact ih
        | some entry =>
          simp only [migEntryPure, hk, if_neg hs, hr, providerProxyUrl,
            if_pos hhost, ih]
          rfl

theorem buildDefaultProxyMapGo_ok (host : String)
    (hhost : validHostname host = true) :
    ∀ (l : List (String × VaultProviderEntry)) (acc : List (String × String)),
      ∃ d, buildDefaultProxyMapGo host acc l = .ok d ∧
        ((acc.map Prod.fst).Nodup → (d.map Prod.fst).Nodup) := by
  intro l
  induction l with
  | nil => intro acc; exact ⟨acc, rfl, id⟩
  | cons pe rest ih =>
    intro acc
    obtain ⟨name, entry⟩ := pe
    cases hr : mapLookup VAULT_PROVIDER_DEFAULTS (jsToLower name) with
    | none =>
      obtain ⟨d, hd, hnd⟩ := ih acc
      refine ⟨d, ?_, hnd⟩
      rw [buildDefaultProxyMapGo]
      simp only [providerProxyUrl, hr]
      exact hd
    | some e2 =>
      obtain ⟨d, hd, hnd⟩ := ih (mapSet acc name (proxyUrlString host e2.port))
      refine ⟨d, ?_, fun hacc => hnd (keys_mapSet_nodup _ _ _ hacc)⟩
      rw [buildDefaultProxyMapGo]
      simp only [providerProxyUrl, hr, if_pos hhost]
      exact hd

theorem buildDefaultProxyMap_ok (host : String)
    (hhost : validHostname host = true) :
    ∃ d, buildDefaultProxyMap host = .ok d ∧ (d.map Prod.fst).Nodup := by
  obtain ⟨d, hd, hnd⟩ :=
    buildDefaultProxyMapGo_ok host hhost VAULT_PROVIDER_DEFAULTS []
  exact ⟨d, hd, hnd (by simp)⟩

theorem migrateProxyMappings_none (host : String) (toMigrate : List MigEntry)
    (k : String) :
    ∀ defaults, mapLookup (migrateProxyMappings host defaults toMigrate) k = none →
      mapLookup defaults k = none := by
  induction toMigrate with
  | nil => intro d h; exact h
  | cons m rest ih =>
    intro d h
    rw [migrateProxyMappings, List.foldl_cons] at h
    have h' := ih _ h
    cases hr : providerProxyUrl m.providerName host with
    | error e =>
      simpa [hr] using h'
    | ok o =>
      cases o with
      | none => simpa [hr] using h'
      | some url =>
        rw [hr] at h'
        simp only at h'
        rw [mapLookup_mapSet] at h'
        by_cases hp : m.providerName = k
        · rw [if_pos hp] at h'
          exact absurd h' (by simp)
        · rwa [if_neg hp] at h'

theorem migrateProxyMappings_nodup (host : String) (toMigrate : List MigEntry) :
    ∀ defaults : List (String × String), (defaults.map Prod.fst).Nodup →
      ((migrateProxyMappings host defaults toMigrate).map Prod.fst).Nodup := by
  induction toMigrate with
  | nil => intro d h; exact h
  | cons m rest ih =>
    intro d h
    rw [migrateProxyMappings, List.foldl_cons]
    cases hr : providerProxyUrl m.providerName host with
    | error e =>
      have := ih d h
      simpa [migrateProxyMappings, hr] using this
    | ok o =>
      cases o with
      | none =>
        have := ih d h
        simpa [migrateProxyMappings, hr] using this
      | some url =>
        have := ih (mapSet d m.providerName url) (keys_mapSet_nodup _ _ _ h)
        simpa [migrateProxyMappings, hr] using this

theorem migrateSecrets_lookup_not_mem (toMigrate : List MigEntry) (n : String)
    (hn : n ∉ toMigrate.map (fun m => m.secretName)) :
    ∀ base, mapLookup (migrateSecrets base toMigrate) n = mapLookup base n := by
  induction toMigrate with
  | nil => intro base; rfl
  | cons m rest ih =>
    intro base
    simp only [List.map_cons, List.mem_cons, not_or] at hn
    rw [migrateSecrets, List.foldl_cons]
    have := ih hn.2 (mapSet base m.secretName m.apiKey)
    rw [migrateSecrets] at this
    rw [this, mapLookup_mapSet, if_neg (fun hh => hn.1 hh.symm)]

theorem migrateSecrets_lookup_mem (toMigrate : List MigEntry)
    (hnodup : (toMigrate.map (fun m => m.secretName)).Nodup) :
    ∀ m ∈ toMigrate, ∀ base,
      mapLookup (migrateSecrets base toMigrate) m.secretName = some m.apiKey := by
  induction toMigrate with
  | nil => intro m hm; cases hm
  | cons m₀ rest ih =>
    intro m hm base
    simp only [List.map_cons, List.nodup_cons] at hnodup
    rcases List.mem_cons.mp hm with rfl | hmem
    · rw [migrateSecrets, List.foldl_cons]
      have hnotin : m.secretName ∉ rest.map (fun q => q.secretName) := hnodup.1
      have := migrateSecrets_lookup_not_mem rest m.secretName hnotin
        (mapSet base m.secretName m.apiKey)
      rw [migrateSecrets] at this
      rw [this, mapLookup_mapSet, if_pos rfl]
    · rw [migrateSecrets, List.foldl_cons]
      have := ih hnodup.2 m hmem (mapSet base m₀.secretName m₀.apiKey)
      rw [migrateSecrets] at this
      exact this

theorem mem_of_mapLookup {α : Type} (l : List (String × α)) (k : String)
    (a : α) (h : mapLookup l k = some a) : (k, a) ∈ l := by
  induction l with
  | nil => cases h
  | cons p r ih =>
    rw [mapLookup] at h
    by_cases hp : p.1 = k
    · rw [if_pos hp] at h
      have hpa : p = (k, a) := by
        obtain ⟨p1, p2⟩ := p
        simp only at hp
        simp only [Option.some_inj] at h
        rw [hp, h]
      exact hpa ▸ List.mem_cons_self p r
    · rw [if_neg hp] at h
      exact List.mem_cons_of_mem p (ih h)

theorem mapLookup_of_mem_nodup {α : Type} (l : List (String × α))
    (hnd : (l.map Prod.fst).Nodup) (k : String) (a : α)
    (h : (k, a) ∈ l) : mapLookup l k = some a := by
  induction l with
  | nil => cases h
  | cons p r ih =>
    simp only [List.map_cons, List.nodup_cons] at hnd
    rcases List.mem_cons.mp h with rfl | hmem
    · rw [mapLookup, if_pos rfl]
    · rw [mapLookup]
      by_cases hp : p.1 = k
      · exfalso
        refine hnd.1 ?_
        rw [hp]
        exact List.mem_map_of_mem Prod.fst hmem
      · rw [if_neg hp]
        exact ih hnd.2 hmem

theorem mem_keys_unique {α : Type} (l : List (String × α))
    (hnd : (l.map Prod.fst).Nodup) (k : String) (a b : α)
    (ha : (k, a) ∈ l) (hb : (k, b) ∈ l) : a = b := by
  have h1 := mapLookup_of_mem_nodup l hnd k a ha
  have h2 := mapLookup_of_mem_nodup l hnd k b hb
  rw [h1] at h2
  exact Option.some_inj.mp h2

/-! ## Helper lemmas: stripping migrated providers -/

theorem stripProviders_eq_map (entries : List MigEntry) :
    ∀ prov : List (String × ProviderCfg),
      stripProviders prov entries = prov.map (fun pe =>
        if pe.1 ∈ entries.map (fun m => m.providerName) then
          (pe.1, { pe.2 with apiKey := none })
        else pe) := by
  induction entries with
  | nil =>
    intro prov
    simp [stripProviders]
  | cons m rest ih =>
    intro prov
    rw [stripProviders, List.foldl_cons]
    have hih := ih (prov.map (stripAt m.providerName))
    rw [stripProviders] at hih
    rw [hih, List.map_map]
    apply List.map_congr_left
    intro pe _
    simp only [Function.comp_apply]
    by_cases h1 : pe.1 = m.providerName
    · have hs : stripAt m.providerName pe = (pe.1, { pe.2 with apiKey := none }) := by
        rw [stripAt, if_pos h1]
      rw [hs]
      by_cases h2 : pe.1 ∈ rest.map (fun m => m.providerName)
      · simp [h2, h1, List.mem_cons]
      · simp [h2, h1, List.mem_cons]
    · have hs : stripAt m.providerName pe = pe := by
        rw [stripAt, if_neg h1]
      rw [hs]
      by_cases h2 : pe.1 ∈ rest.map (fun m => m.providerName)
      · simp [h2, h1, List.mem_cons]
      · simp [h2, h1, List.mem_cons]

theorem migEntryPure_some (pe : String × ProviderCfg) (q : MigEntry)
    (h : migEntryPure pe = some q) :
    q.providerName = pe.1 ∧ pe.2.apiKey = some q.apiKey ∧
    ∃ e, mapLookup VAULT_PROVIDER_DEFAULTS (jsToLower pe.1) = some e ∧
      q.secretName = e.secretName := by
  rw [migEntryPure] at h
  split at h
  · exact Option.noConfusion h
  next key hkey =>
    split at h
    · exact Option.noConfusion h
    next hs =>
      split at h
      · exact Option.noConfusion h
      next e he =>
        have hq := Option.some_inj.mp h
        subst hq
        refine ⟨rfl, hkey, e, he, ?_⟩
        simp only [migSecretName, providerSecretName, he, Option.map_some']

theorem not_mem_eligible_names (providers : List (String × ProviderCfg))
    (hkeys : (providers.map Prod.fst).Nodup) (p : String) (cfgp : ProviderCfg)
    (hmem : (p, cfgp) ∈ providers) (hnone : migEntryPure (p, cfgp) = none) :
    p ∉ (eligibleProviders providers).map (fun m => m.providerName) := by
  intro hp
  obtain ⟨q, hq, hqp⟩ := List.mem_map.mp hp
  obtain ⟨pe, hpe, hpeq⟩ := List.mem_filterMap.mp hq
  obtain ⟨pe1, pe2⟩ := pe
  have hpe1 : pe1 = p := by
    have h1 := (migEntryPure_some (pe1, pe2) q hpeq).1
    simp only at h1
    rw [← hqp, h1]
  subst hpe1
  have hcfg : pe2 = cfgp := mem_keys_unique providers hkeys pe1 pe2 cfgp hpe hmem
  rw [hcfg] at hpeq
  rw [hnone] at hpeq
  exact Option.noConfusion hpeq

theorem eligible_secretNames_nodup (providers : List (String × ProviderCfg))
    (hlower : ((providers.map Prod.fst).map jsToLower).Nodup) :
    ((eligibleProviders providers).map (fun m => m.secretName)).Nodup := by
  induction providers with
  | nil => simp [eligibleProviders]
  | cons pe rest ih =>
    simp only [List.map_cons, List.nodup_cons] at hlower
    rw [eligibleProviders, List.filterMap_cons]
    cases hq : migEntryPure pe with
    | none =>
      simp only
      exact ih hlower.2
    | some q =>
      simp only
      rw [List.map_cons, List.nodup_cons]
      refine ⟨?_, ih hlower.2⟩
      intro hmem
      obtain ⟨q', hq', hsq⟩ := List.mem_map.mp hmem
      obtain ⟨pe', hpe', hpeq'⟩ := List.mem_filterMap.mp hq'
      obtain ⟨-, -, e, he, hsn⟩ := migEntryPure_some pe q hq
      obtain ⟨-, -, e', he', hsn'⟩ := migEntryPure_some pe' q' hpeq'
      have hee : e'.secretName = e.secretName := by rw [← hsn, ← hsn', hsq]
      have hreg : ∀ a ∈ VAULT_PROVIDER_DEFAULTS, ∀ b ∈ VAULT_PROVIDER_DEFAULTS,
          a.2.secretName = b.2.secretName → a.1 = b.1 := by decide
      have hmem1 := mem_of_mapLookup _ _ _ he
      have hmem2 := mem_of_mapLookup _ _ _ he'
      have hlow : jsToLower pe'.1 = jsToLower pe.1 := hreg _ hmem2 _ hmem1 hee
      exact hlower.1
        (hlow ▸ List.mem_map_of_mem jsToLower (List.mem_map_of_mem Prod.fst hpe'))

theorem eligible_strip_nil (providers : List (String × ProviderCfg)) :
    eligibleProviders
      (stripProviders providers (eligibleProviders providers)) = [] := by
  rw [stripProviders_eq_map, eligibleProviders, List.filterMap_eq_nil_iff]
  intro a ha
  obtain ⟨pe, hpe, rfl⟩ := List.mem_map.mp ha
  by_cases h : pe.1 ∈ (eligibleProviders providers).map (fun m => m.providerName)
  · rw [if_pos h, migEntryPure]
  · rw [if_neg h]
    cases hq : migEntryPure pe with
    | none => rfl
    | some q =>
      exfalso
      apply h
      have h1 := (migEntryPure_some pe q hq).1
      exact h1 ▸ List.mem_map_of_mem _ (List.mem_filterMap.mpr ⟨pe, hpe, hq⟩)

theorem mapLookup_stripMap (entries : List MigEntry) (p : String) :
    ∀ prov : List (String × ProviderCfg),
      mapLookup (prov.map (fun pe =>
        if pe.1 ∈ entries.map (fun m => m.providerName) then
          (pe.1, { pe.2 with apiKey := none })
        else pe)) p =
      if p ∈ entries.map (fun m => m.providerName) then
        (mapLookup prov p).map (fun c => { c with apiKey := none })
      else mapLookup prov p := by
  intro prov
  induction prov with
  | nil =>
    by_cases hp : p ∈ entries.map (fun m => m.providerName) <;>
      simp [mapLookup, hp]
  | cons q r ih =>
    rw [List.map_cons]
    by_cases hq1 : q.1 ∈ entries.map (fun m => m.providerName)
    · rw [if_pos hq1]
      by_cases hqp : q.1 = p
      · rw [mapLookup, if_pos hqp, if_pos (hqp ▸ hq1), mapLookup, if_pos hqp]
        rfl
      · rw [mapLookup, if_neg hqp, ih]
        by_cases hp : p ∈ entries.map (fun m => m.providerName)
        · rw [if_pos hp, if_pos hp, mapLookup, if_neg hqp]
        · rw [if_neg hp, if_neg hp, mapLookup, if_neg hqp]
    · rw [if_neg hq1]
      by_cases hqp : q.1 = p
      · have hp : p ∉ entries.map (fun m => m.providerName) := hqp ▸ hq1
        rw [mapLookup, if_pos hqp, if_neg hp, mapLookup, if_pos hqp]
      · rw [mapLookup, if_neg hqp, ih]
        by_cases hp : p ∈ entries.map (fun m => m.providerName)
        · rw [if_pos hp, if_pos hp, mapLookup, if_neg hqp]
        · rw [if_neg hp, if_neg hp, mapLookup, if_neg hqp]

theorem mapLookup_stripProviders (entries : List MigEntry)
    (prov : List (String × ProviderCfg)) (p : String) :
    mapLookup (stripProviders prov entries) p =
      if p ∈ entries.map (fun m => m.providerName) then
        (mapLookup prov p).map (fun c => { c with apiKey := none })
      else mapLookup prov p := by
  rw [stripProviders_eq_map, mapLookup_stripMap]

/-! ## Helper lemmas: the shape of a migrate run -/

theorem applyEffects_migrateApply (host : String) (fresh : AgeKeypair)
    (w : World) (toMigrate : List MigEntry)
    (defaults : List (String × String)) :
    (vaultMigrateApply host fresh w toMigrate defaults).2 = .ok () ∧
    applyEffects w (vaultMigrateApply host fresh w toMigrate defaults).1 =
      { config :=
          { vaultEnabled := some true,
            publicKey := some (w.config.publicKey.getD fresh.recipient),
            proxies := spreadMerge w.config.proxies
              (migrateProxyMappings host defaults toMigrate),
            providers := stripProviders w.config.providers toMigrate },
        vaultFile := some (migrateSecrets (migrateBaseSecrets w) toMigrate) } := by
  refine ⟨rfl, ?_⟩
  rw [vaultMigrateApply]
  cases hpk : w.config.publicKey with
  | none =>
    cases hvf : w.vaultFile with
    | none =>
      simp [hpk, hvf, applyEffects, applyEffect, migrateBaseSecrets,
        migrateSecrets, migrateProxyMappings, stripProviders]
    | some s =>
      simp [hpk, hvf, applyEffects, applyEffect, migrateBaseSecrets,
        migrateSecrets, migrateProxyMappings, stripProviders]
  | some pk =>
    cases hvf : w.vaultFile with
    | none =>
      simp [hpk, hvf, applyEffects, applyEffect, migrateBaseSecrets,
        migrateSecrets, migrateProxyMappings, stripProviders]
    | some s =>
      simp [hpk, hvf, applyEffects, applyEffect, migrateBaseSecrets,
        migrateSecrets, migrateProxyMappings, stripProviders]

theorem vaultMigrate_empty_providers (dryRun : Bool) (host : String)
    (fresh : AgeKeypair) (w : World) (h : w.config.providers = []) :
    vaultMigrate dryRun host fresh w = ([], .ok ()) := by
  simp [vaultMigrate, h]

theorem vaultMigrate_no_eligible (host : String) (fresh : AgeKeypair)
    (w : World) (d : List (String × String))
    (hne : w.config.providers ≠ [])
    (hhost : validHostname host = true)
    (hd : buildDefaultProxyMap host = .ok d)
    (hE : eligibleProviders w.config.providers = []) :
    vaultMigrate false host fresh w =
      ([.writeConfig { w.config with
          proxies := spreadMerge d w.config.proxies }], .ok ()) := by
  simp [vaultMigrate, scanProviders_ok host hhost, hd, hE, hne]

theorem vaultMigrate_eligible (host : String) (fresh : AgeKeypair)
    (w : World) (d : List (String × String))
    (hne : w.config.providers ≠ [])
    (hhost : validHostname host = true)
    (hd : buildDefaultProxyMap host = .ok d)
    (hE : eligibleProviders w.config.providers ≠ []) :
    vaultMigrate false host fresh w =
      vaultMigrateApply host fresh w (eligibleProviders w.config.providers) d := by
  simp [vaultMigrate, scanProviders_ok host hhost, hd, hE, hne]

/-- A migrate run on a world whose scan finds nothing eligible leaves the
vault file, enabled flag, public key, and providers untouched, and
changes the proxy map at no key (the defaults it merges in are already
dominated). -/
theorem vaultMigrate_stable (w1 : World) (host : String) (fresh : AgeKeypair)
    (d : List (String × String))
    (hhost : validHostname host = true)
    (hd : buildDefaultProxyMap host = .ok d)
    (hE1 : eligibleProviders w1.config.providers = [])
    (hnodov : (w1.config.proxies.map Prod.fst).Nodup)
    (hcond : ∀ k, mapLookup w1.config.proxies k = none →
      mapLookup d k = none) :
    (vaultMigrate false host fresh w1).2 = .ok () ∧
    (applyEffects w1 (vaultMigrate false host fresh w1).1).vaultFile
      = w1.vaultFile ∧
    (applyEffects w1 (vaultMigrate false host fresh w1).1).config.vaultEnabled
      = w1.config.vaultEnabled ∧
    (applyEffects w1 (vaultMigrate false host fresh w1).1).config.publicKey
      = w1.config.publicKey ∧
    (applyEffects w1 (vaultMigrate false host fresh w1).1).config.providers
      = w1.config.providers ∧
    ∀ k, mapLookup
        (applyEffects w1 (vaultMigrate false host fresh w1).1).config.proxies k
      = mapLookup w1.config.proxies k := by
  by_cases hprov : w1.config.providers = []
  · rw [vaultMigrate_empty_providers false host fresh w1 hprov]
    exact ⟨rfl, rfl, rfl, rfl, rfl, fun k => rfl⟩
  · rw [vaultMigrate_no_eligible host fresh w1 d hprov hhost hd hE1]
    refine ⟨rfl, rfl, rfl, rfl, rfl, ?_⟩
    intro k
    show mapLookup (spreadMerge d w1.config.proxies) k
      = mapLookup w1.config.proxies k
    cases hk : mapLookup w1.config.proxies k with
    | some u => exact mapLookup_spreadMerge_of_some _ _ _ d hnodov hk
    | none =>
      rw [mapLookup_spreadMerge_of_none _ _ d hk]
      exact hcond k hk

/-! ## Claim C3 -/

/-- C3: `migrate` is idempotent.  Both runs succeed, and the second run
leaves the vault file's decrypted contents and the structured
configuration unchanged: the enabled flag, public key and providers are
equal on the nose, and the proxy map is unchanged at every key (the JSON
object's key order may differ, its contents do not). -/
theorem C3_migrate_idempotent (w : World) (host : String)
    (fresh1 fresh2 : AgeKeypair)
    (hhost : validHostname host = true)
    (hprox : (w.config.proxies.map Prod.fst).Nodup) :
    (vaultMigrate false host fresh1 w).2 = .ok () ∧
    (vaultMigrate false host fresh2
       (applyEffects w (vaultMigrate false host fresh1 w).1)).2 = .ok () ∧
    (applyEffects (applyEffects w (vaultMigrate false host fresh1 w).1)
       (vaultMigrate false host fresh2
          (applyEffects w (vaultMigrate false host fresh1 w).1)).1).vaultFile
      = (applyEffects w (vaultMigrate false host fresh1 w).1).vaultFile ∧
    (applyEffects (applyEffects w (vaultMigrate false host fresh1 w).1)
       (vaultMigrate false host fresh2
          (applyEffects w (vaultMigrate false host fresh1 w).1)).1).config.vaultEnabled
      = (applyEffects w (vaultMigrate false host fresh1 w).1).config.vaultEnabled ∧
    (applyEffects (applyEffects w (vaultMigrate false host fresh1 w).1)
       (vaultMigrate false host fresh2
          (applyEffects w (vaultMigrate false host fresh1 w).1)).1).config.publicKey
      = (applyEffects w (vaultMigrate false host fresh1 w).1).config.publicKey ∧
    (applyEffects (applyEffects w (vaultMigrate false host fresh1 w).1)
       (vaultMigrate false host fresh2
          (applyEffects w (vaultMigrate false host fresh1 w).1)).1).config.providers
      = (applyEffects w (vaultMigrate false host fresh1 w).1).config.providers ∧
    ∀ k, mapLookup
        (applyEffects (applyEffects w (vaultMigrate false host fresh1 w).1)
          (vaultMigrate false host fresh2
            (applyEffects w (vaultMigrate false host fresh1 w).1)).1).config.proxies k
      = mapLookup
          (applyEffects w (vaultMigrate false host fresh1 w).1).config.proxies k := by
  obtain ⟨d, hd, hdnod⟩ := buildDefaultProxyMap_ok host hhost
  by_cases hprov : w.config.providers = []
  · rw [vaultMigrate_empty_providers false host fresh1 w hprov]
    have hw : applyEffects w
        (([], Except.ok ()) : List Effect × Except CmdError Unit).1 = w := rfl
    rw [hw, vaultMigrate_empty_providers false host fresh2 w hprov]
    exact ⟨rfl, rfl, rfl, rfl, rfl, rfl, fun k => rfl⟩
  · by_cases hE : eligibleProviders w.config.providers = []
    · rw [vaultMigrate_no_eligible host fresh1 w d hprov hhost hd hE]
      have hstable := vaultMigrate_stable
        (applyEffects w (([Effect.writeConfig { w.config with
            proxies := spreadMerge d w.config.proxies }], Except.ok ()) :
          List Effect × Except CmdError Unit).1)
        host fresh2 d hhost hd hE
        (keys_spreadMerge_nodup w.config.proxies d hdnod)
        (fun k hk => mapLookup_spreadMerge_none w.config.proxies k d hk)
      exact ⟨rfl, hstable.1, hstable.2.1, hstable.2.2.1, hstable.2.2.2.1,
        hstable.2.2.2.2.1, hstable.2.2.2.2.2⟩
    · rw [vaultMigrate_eligible host fresh1 w d hprov hhost hd hE]
      obtain ⟨hok1, hw1⟩ := applyEffects_migrateApply host fresh1 w
        (eligibleProviders w.config.providers) d
      rw [hw1]
      have hMnod := migrateProxyMappings_nodup host
        (eligibleProviders w.config.providers) d hdnod
      have hstable := vaultMigrate_stable
        { config :=
            { vaultEnabled := some true,
              publicKey := some (w.config.publicKey.getD fresh1.recipient),
              proxies := spreadMerge w.config.proxies
                (migrateProxyMappings host d (eligibleProviders w.config.providers)),
              providers := stripProviders w.config.providers
                (eligibleProviders w.config.providers) },
          vaultFile := some (migrateSecrets (migrateBaseSecrets w)
            (eligibleProviders w.config.providers)) }
        host fresh2 d hhost hd
        (eligible_strip_nil w.config.providers)
        (keys_spreadMerge_nodup
          (migrateProxyMappings host d (eligibleProviders w.config.providers))
          w.config.proxies hprox)
        (fun k hk => by
          have hM : mapLookup (migrateProxyMappings host d
              (eligibleProviders w.config.providers)) k = none := by
            cases hMk : mapLookup (migrateProxyMappings host d
                (eligibleProviders w.config.providers)) k with
            | none => rfl
            | some u =>
              have hsome := mapLookup_spreadMerge_of_some
                (migrateProxyMappings host d (eligibleProviders w.config.providers))
                k u w.config.proxies hMnod hMk
              rw [hk] at hsome
              exact Option.noConfusion hsome
          exact migrateProxyMappings_none host
            (eligibleProviders w.config.providers) k d hM)
      exact ⟨hok1, hstable.1, hstable.2.1, hstable.2.2.1, hstable.2.2.2.1,
        hstable.2.2.2.2.1, hstable.2.2.2.2.2⟩

/-- C3, witness: both runs on a one-provider configuration. -/
theorem C3_migrate_idempotent_witness :
    (vaultMigrate false "vault" ⟨"AGE-SECRET-KEY-1B", "age1b"⟩
       (applyEffects
         { config := { vaultEnabled := none, publicKey := none, proxies := [],
                       providers := [("openai", ⟨some "sk", "extra"⟩)] },
           vaultFile := none }
         (vaultMigrate false "vault" ⟨"AGE-SECRET-KEY-1A", "age1a"⟩
           { config := { vaultEnabled := none, publicKey := none, proxies := [],
                         providers := [("openai", ⟨some "sk", "extra"⟩)] },
             vaultFile := none }).1)).2 = .ok () ∧
    (applyEffects
       (applyEffects
         { config := { vaultEnabled := none, publicKey := none, proxies := [],
                       providers := [("openai", ⟨some "sk", "extra"⟩)] },
           vaultFile := none }
         (vaultMigrate false "vault" ⟨"AGE-SECRET-KEY-1A", "age1a"⟩
           { config := { vaultEnabled := none, publicKey := none, proxies := [],
                         providers := [("openai", ⟨some "sk", "extra"⟩)] },
             vaultFile := none }).1)
       (vaultMigrate false "vault" ⟨"AGE-SECRET-KEY-1B", "age1b"⟩
         (applyEffects
           { config := { vaultEnabled := none, publicKey := none, proxies := [],
                         providers := [("openai", ⟨some "sk", "extra"⟩)] },
             vaultFile := none }
           (vaultMigrate false "vault" ⟨"AGE-SECRET-KEY-1A", "age1a"⟩
             { config := { vaultEnabled := none, publicKey := none, proxies := [],
                           providers := [("openai", ⟨some "sk", "extra"⟩)] },
               vaultFile := none }).1)).1).vaultFile
      = (applyEffects
          { config := { vaultEnabled := none, publicKey := none, proxies := [],
                        providers := [("openai", ⟨some "sk", "extra"⟩)] },
            vaultFile := none }
          (vaultMigrate false "vault" ⟨"AGE-SECRET-KEY-1A", "age1a"⟩
            { config := { vaultEnabled := none, publicKey := none, proxies := [],
                          providers := [("openai", ⟨some "sk", "extra"⟩)] },
              vaultFile := none }).1).vaultFile := by
  have h := C3_migrate_idempotent
    { config := { vaultEnabled := none, publicKey := none, proxies := [],
                  providers := [("openai", ⟨some "sk", "extra"⟩)] },
      vaultFile := none }
    "vault" ⟨"AGE-SECRET-KEY-1A", "age1a"⟩ ⟨"AGE-SECRET-KEY-1B", "age1b"⟩
    (by decide) (by decide)
  exact ⟨h.2.1, h.2.2.1⟩

/-! ## Claim C4 -/

/-- C4: the migrate partition.  (a) A provider whose `apiKey` is the
proxy-managed sentinel keeps its configuration entry unchanged.  (b) A
provider with a plaintext key and a known proxy mapping has the key
stored in the vault under its registry secret name and its `apiKey`
field removed (all other fields kept).  (c) A provider with a plaintext
key but no proxy mapping keeps its entry unchanged, and (provided its
would-be secret name does not collide with a migrated one) nothing is
added to the vault under that name — its entry there is either the
pre-existing one or absent. -/
theorem C4_migrate_partition (w : World) (host : String) (fresh : AgeKeypair)
    (hhost : validHostname host = true)
    (hlower : ((w.config.providers.map Prod.fst).map jsToLower).Nodup) :
    (vaultMigrate false host fresh w).2 = .ok () ∧
    (∀ p cfgp, (p, cfgp) ∈ w.config.providers →
       cfgp.apiKey = some VAULT_PROXY_PLACEHOLDER_KEY →
       mapLookup
         (applyEffects w (vaultMigrate false host fresh w).1).config.providers p
         = some cfgp) ∧
    (∀ p cfgp key url, (p, cfgp) ∈ w.config.providers →
       cfgp.apiKey = some key → key ≠ "" → key ≠ VAULT_PROXY_PLACEHOLDER_KEY →
       providerProxyUrl p host = .ok (some url) →
       mapLookup
         ((applyEffects w (vaultMigrate false host fresh w).1).vaultFile.getD [])
         (migSecretName p) = some key ∧
       mapLookup
         (applyEffects w (vaultMigrate false host fresh w).1).config.providers p
         = some { cfgp with apiKey := none }) ∧
    (∀ p cfgp key, (p, cfgp) ∈ w.config.providers →
       cfgp.apiKey = some key → key ≠ "" → key ≠ VAULT_PROXY_PLACEHOLDER_KEY →
       providerProxyUrl p host = .ok none →
       mapLookup
         (applyEffects w (vaultMigrate false host fresh w).1).config.providers p
         = some cfgp ∧
       (migSecretName p ∉
          (eligibleProviders w.config.providers).map (fun m => m.secretName) →
        mapLookup
          ((applyEffects w (vaultMigrate false host fresh w).1).vaultFile.getD [])
          (migSecretName p)
          = mapLookup (w.vaultFile.getD []) (migSecretName p) ∨
        mapLookup
          ((applyEffects w (vaultMigrate false host fresh w).1).vaultFile.getD [])
          (migSecretName p) = none)) := by
  have hkeys : (w.config.providers.map Prod.fst).Nodup := hlower.of_map
  obtain ⟨d, hd, hdnod⟩ := buildDefaultProxyMap_ok host hhost
  by_cases hprov : w.config.providers = []
  · rw [vaultMigrate_empty_providers false host fresh w hprov]
    refine ⟨rfl, ?_, ?_, ?_⟩
    · intro p cfgp hmem _
      rw [hprov] at hmem
      cases hmem
    · intro p cfgp key url hmem
      rw [hprov] at hmem
      cases hmem
    · intro p cfgp key hmem
      rw [hprov] at hmem
      cases hmem
  · by_cases hE : eligibleProviders w.config.providers = []
    · rw [vaultMigrate_no_eligible host fresh w d hprov hhost hd hE]
      refine ⟨rfl, ?_, ?_, ?_⟩
      · intro p cfgp hmem _
        exact mapLookup_of_mem_nodup w.config.providers hkeys p cfgp hmem
      · intro p cfgp key url hmem hkey hke hks hurl
        exfalso
        have hlook : mapLookup VAULT_PROVIDER_DEFAULTS (jsToLower p)
            = (mapLookup VAULT_PROVIDER_DEFAULTS (jsToLower p)) := rfl
        have hq : migEntryPure (p, cfgp) = some ⟨p, key, migSecretName p⟩ := by
          rw [migEntryPure]
          simp only [hkey]
          rw [if_neg (by simp [hke, hks])]
          rw [providerProxyUrl] at hurl
          cases hr : mapLookup VAULT_PROVIDER_DEFAULTS (jsToLower p) with
          | none =>
            rw [hr] at hurl
            simp at hurl
          | some e => rfl
        have : (⟨p, key, migSecretName p⟩ : MigEntry)
            ∈ eligibleProviders w.config.providers :=
          List.mem_filterMap.mpr ⟨(p, cfgp), hmem, hq⟩
        rw [hE] at this
        cases this
      · intro p cfgp key hmem hkey hke hks hurl
        refine ⟨mapLookup_of_mem_nodup w.config.providers hkeys p cfgp hmem,
          fun _ => Or.inl rfl⟩
    · rw [vaultMigrate_eligible host fresh w d hprov hhost hd hE]
      obtain ⟨-, hw1⟩ := applyEffects_migrateApply host fresh w
        (eligibleProviders w.config.providers) d
      rw [hw1]
      refine ⟨rfl, ?_, ?_, ?_⟩
      · intro p cfgp hmem hkey
        have hnone : migEntryPure (p, cfgp) = none := by
          rw [migEntryPure]
          simp [hkey]
        have hnotin := not_mem_eligible_names w.config.providers hkeys
          p cfgp hmem hnone
        show mapLookup (stripProviders w.config.providers
          (eligibleProviders w.config.providers)) p = some cfgp
        rw [mapLookup_stripProviders, if_neg hnotin]
        exact mapLookup_of_mem_nodup w.config.providers hkeys p cfgp hmem
      · intro p cfgp key url hmem hkey hke hks hurl
        obtain ⟨e, he⟩ : ∃ e,
            mapLookup VAULT_PROVIDER_DEFAULTS (jsToLower p) = some e := by
          rw [providerProxyUrl] at hurl
          cases hr : mapLookup VAULT_PROVIDER_DEFAULTS (jsToLower p) with
          | none =>
            rw [hr] at hurl
            simp at hurl
          | some e => exact ⟨e, rfl⟩
        have hq : migEntryPure (p, cfgp) = some ⟨p, key, migSecretName p⟩ := by
          rw [migEntryPure]
          simp only [hkey]
          rw [if_neg (by simp [hke, hks]), he]
        have hqE : (⟨p, key, migSecretName p⟩ : MigEntry)
            ∈ eligibleProviders w.config.providers :=
          List.mem_filterMap.mpr ⟨(p, cfgp), hmem, hq⟩
        constructor
        · show mapLookup (migrateSecrets (migrateBaseSecrets w)
            (eligibleProviders w.config.providers)) (migSecretName p) = some key
          exact migrateSecrets_lookup_mem (eligibleProviders w.config.providers)
            (eligible_secretNames_nodup w.config.providers hlower)
            ⟨p, key, migSecretName p⟩ hqE (migrateBaseSecrets w)
        · show mapLookup (stripProviders w.config.providers
            (eligibleProviders w.config.providers)) p
            = some { cfgp with apiKey := none }
          rw [mapLookup_stripProviders,
            if_pos (List.mem_map.mpr ⟨⟨p, key, migSecretName p⟩, hqE, rfl⟩),
            mapLookup_of_mem_nodup w.config.providers hkeys p cfgp hmem]
          rfl
      · intro p cfgp key hmem hkey hke hks hurl
        have hreg : mapLookup VAULT_PROVIDER_DEFAULTS (jsToLower p) = none := by
          rw [providerProxyUrl] at hurl
          cases hr : mapLookup VAULT_PROVIDER_DEFAULTS (jsToLower p) with
          | none => rfl
          | some e =>
            rw [hr] at hurl
            simp [hhost] at hurl
        have hnone : migEntryPure (p, cfgp) = none := by
          rw [migEntryPure]
          simp only [hkey]
          rw [if_neg (by simp [hke, hks]), hreg]
        have hnotin := not_mem_eligible_names w.config.providers hkeys
          p cfgp hmem hnone
        constructor
        · show mapLookup (stripProviders w.config.providers
            (eligibleProviders w.config.providers)) p = some cfgp
          rw [mapLookup_stripProviders, if_neg hnotin]
          exact mapLookup_of_mem_nodup w.config.providers hkeys p cfgp hmem
        · intro hnc
          have hbase : mapLookup (migrateSecrets (migrateBaseSecrets w)
              (eligibleProviders w.config.providers)) (migSecretName p)
              = mapLookup (migrateBaseSecrets w) (migSecretName p) :=
            migrateSecrets_lookup_not_mem _ _ hnc (migrateBaseSecrets w)
          cases hpk : w.config.publicKey with
          | some pk =>
            refine Or.inl ?_
            show mapLookup (migrateSecrets (migrateBaseSecrets w)
              (eligibleProviders w.config.providers)) (migSecretName p)
              = mapLookup (w.vaultFile.getD []) (migSecretName p)
            rw [hbase, migrateBaseSecrets, hpk]
          | none =>
            refine Or.inr ?_
            show mapLookup (migrateSecrets (migrateBaseSecrets w)
              (eligibleProviders w.config.providers)) (migSecretName p) = none
            rw [hbase, migrateBaseSecrets, hpk]
            rfl

/-- C4, witness: the spec scenario — `openai` with a plaintext key is
migrated into `OPENAI_API_KEY` with its `apiKey` stripped.  -/
theorem C4_migrate_partition_witness :
    mapLookup
      ((applyEffects
          { config := { vaultEnabled := none, publicKey := some "age1pk",
                        proxies := [],
                        providers := [("openai", ⟨some "sk-real", "r1"⟩),
                                      ("ollama", ⟨some "ollama-local", "r2"⟩)] },
            vaultFile := some [("KEEP", "1")] }
          (vaultMigrate false "vault" ⟨"AGE-SECRET-KEY-1T", "age1t"⟩
            { config := { vaultEnabled := none, publicKey := some "age1pk",
                          proxies := [],
                          providers := [("openai", ⟨some "sk-real", "r1"⟩),
                                        ("ollama", ⟨some "ollama-local", "r2"⟩)] },
              vaultFile := some [("KEEP", "1")] }).1).vaultFile.getD [])
      (migSecretName "openai") = some "sk-real" :=
  ((C4_migrate_partition
      { config := { vaultEnabled := none, publicKey := some "age1pk",
                    proxies := [],
                    providers := [("openai", ⟨some "sk-real", "r1"⟩),
                                  ("ollama", ⟨some "ollama-local", "r2"⟩)] },
        vaultFile := some [("KEEP", "1")] }
      "vault" ⟨"AGE-SECRET-KEY-1T", "age1t"⟩
      (by decide) (by decide)).2.2.1
    "openai" ⟨some "sk-real", "r1"⟩ "sk-real" "http://vault:8081"
    (by decide) rfl (by decide) (by decide) rfl).1

/-! ## Claim C5 -/

/-- C5, counterexample: when the vault file exists but no public key is
configured, `migrate` generates a fresh keypair and overwrites the vault
with an empty one before merging, so the pre-existing secret
`OLD_SECRET` (present before the run) is gone afterwards — the claim's
"every starting configuration state, including when the vault file
exists but no public key is configured" fails. -/
theorem C5_migrate_drops_counterexample :
    ({ config := { vaultEnabled := none, publicKey := none, proxies := [],
                   providers := [("openai", ⟨some "sk", "extra"⟩)] },
       vaultFile := some [("OLD_SECRET", "v")] } : World).config.publicKey
      = none ∧
    mapLookup
      (({ config := { vaultEnabled := none, publicKey := none, proxies := [],
                      providers := [("openai", ⟨some "sk", "extra"⟩)] },
          vaultFile := some [("OLD_SECRET", "v")] } : World).vaultFile.getD [])
      "OLD_SECRET" = some "v" ∧
    mapLookup
      ((applyEffects
          { config := { vaultEnabled := none, publicKey := none, proxies := [],
                        providers := [("openai", ⟨some "sk", "extra"⟩)] },
            vaultFile := some [("OLD_SECRET", "v")] }
          (vaultMigrate false "vault" ⟨"AGE-SECRET-KEY-1T", "age1t"⟩
            { config := { vaultEnabled := none, publicKey := none, proxies := [],
                          providers := [("openai", ⟨some "sk", "extra"⟩)] },
              vaultFile := some [("OLD_SECRET", "v")] }).1).vaultFile.getD [])
      "OLD_SECRET" = none :=
  ⟨rfl, rfl, by decide⟩

/-- C5 (amended): provided a public key is already configured, every
pre-existing vault secret whose name is not among the migrated secret
names survives `migrate` with its original value.  (When no public key
is configured the vault is re-initialized empty and pre-existing secrets
are dropped; a pre-existing secret sharing a migrated secret's name is
overwritten with the migrated key.) -/
theorem C5_migrate_preserves_unrelated (w : World) (host pk : String)
    (fresh : AgeKeypair) (n v : String)
    (hhost : validHostname host = true)
    (hpk : w.config.publicKey = some pk)
    (hn : mapLookup (w.vaultFile.getD []) n = some v)
    (hnot : n ∉ (eligibleProviders w.config.providers).map
      (fun m => m.secretName)) :
    mapLookup
      ((applyEffects w (vaultMigrate false host fresh w).1).vaultFile.getD [])
      n = some v := by
  by_cases hprov : w.config.providers = []
  · rw [vaultMigrate_empty_providers false host fresh w hprov]
    exact hn
  · obtain ⟨d, hd, -⟩ := buildDefaultProxyMap_ok host hhost
    by_cases hE : eligibleProviders w.config.providers = []
    · rw [vaultMigrate_no_eligible host fresh w d hprov hhost hd hE]
      exact hn
    · rw [vaultMigrate_eligible host fresh w d hprov hhost hd hE,
        (applyEffects_migrateApply host fresh w
          (eligibleProviders w.config.providers) d).2]
      show mapLookup (migrateSecrets (migrateBaseSecrets w)
        (eligibleProviders w.config.providers)) n = some v
      rw [migrateSecrets_lookup_not_mem _ _ hnot (migrateBaseSecrets w),
        migrateBaseSecrets, hpk]
      exact hn

/-- C5, witness for the amended preservation theorem: a pre-existing
unrelated secret survives a migration that moves one provider key. -/
theorem C5_migrate_preserves_unrelated_witness :
    mapLookup
      ((applyEffects
          { config := { vaultEnabled := none, publicKey := some "age1pk",
                        proxies := [],
                        providers := [("openai", ⟨some "sk-real", "r1"⟩)] },
            vaultFile := some [("KEEP", "1")] }
          (vaultMigrate false "vault" ⟨"AGE-SECRET-KEY-1T", "age1t"⟩
            { config := { vaultEnabled := none, publicKey := some "age1pk",
                          proxies := [],
                          providers := [("openai", ⟨some "sk-real", "r1"⟩)] },
              vaultFile := some [("KEEP", "1")] }).1).vaultFile.getD [])
      "KEEP" = some "1" :=
  C5_migrate_preserves_unrelated
    { config := { vaultEnabled := none, publicKey := some "age1pk",
                  proxies := [],
                  providers := [("openai", ⟨some "sk-real", "r1"⟩)] },
      vaultFile := some [("KEEP", "1")] }
    "vault" "age1pk" ⟨"AGE-SECRET-KEY-1T", "age1t"⟩ "KEEP" "1"
    (by decide) rfl (by decide) (by decide)

end OpenClawVault
